import Mathlib

/-!
Verification of the real-time market-analysis core of the TuniTrAIde
repository (src/real_time_utils.py and src/refresh.py) against its
natural-language specification.

Conventions of the shallow embedding:

* Python floats are modelled as exact arithmetic: rational numbers (ℚ) for
  all tabular data, and real numbers (ℝ) for the liquidity scores, which
  are natural logarithms (numpy.log).
* `float('-inf')` returned by compute_liquidity, and NaN cells produced by
  the pipeline, are modelled by Option: none stands for the non-finite
  value, some x for a finite float x.
* A pandas dataframe is a list of structure values, one per row; a
  per-ticker slice (groupby CODE, sorted by SEANCE) is obtained by
  filtering on the code and insertion-sorting by date.
* Dates (pandas Timestamps, normalized to midnight) are modelled as
  integers counting days; in the 2026 forecast calendar, day 0 is Monday
  2025-12-29, so that a day d is a Saturday iff d % 7 = 5 and a Sunday iff
  d % 7 = 6, and 2026-01-01 (a Thursday) is day 3.
-/

/-- The float epsilon constant of real_time_utils.py (`epsilon = 1e-6`). -/
def epsilon : ℚ := 1 / 1000000

/-- One market-data row, restricted to the columns that the liquidity and
forecast computations read: CODE, SEANCE, PLUS_HAUT, PLUS_BAS, CLOTURE and
QUANTITE_NEGOCIEE. -/
structure Row where
  code : ℕ
  seance : ℤ
  haut : ℚ
  bas : ℚ
  cloture : ℚ
  volume : ℚ
deriving DecidableEq, Repr

/-- The guarded denominator of compute_liquidity:
`denom = avg_range + (epsilon if avg_range == 0 else 0)` followed by
`if denom <= 0: denom = epsilon`. -/
def denomOf (avg_range : ℚ) : ℚ :=
  if avg_range + (if avg_range = 0 then epsilon else 0) ≤ 0 then epsilon
  else avg_range + (if avg_range = 0 then epsilon else 0)

/-- compute_liquidity(volume, close, avg_range, epsilon) from
real_time_utils.py.  Returns none for `float('-inf')` (taken when
`volume*close <= 0`), otherwise the logarithm of the product over the
guarded denominator. -/
noncomputable def compute_liquidity (volume close avg_range : ℚ) : Option ℝ :=
  if volume * close ≤ 0 then none
  else some (Real.log ((volume * close : ℚ) / (denomOf avg_range : ℝ)))

/-- Insert a row into a list sorted by ascending SEANCE. -/
def insertRow (r : Row) : List Row → List Row
  | [] => [r]
  | s :: ss => if r.seance < s.seance then r :: s :: ss else s :: insertRow r ss

/-- Sort a list of rows by ascending SEANCE (`sort_values('SEANCE')`). -/
def sortByDate : List Row → List Row
  | [] => []
  | r :: rs => insertRow r (sortByDate rs)

/-- The date-sorted slice of a table for one ticker:
`df[df['CODE'] == code].sort_values('SEANCE')`. -/
def rowsOf (c : ℕ) (t : List Row) : List Row :=
  sortByDate (t.filter (fun r => r.code == c))

/-- The per-row trading range PLUS_HAUT - PLUS_BAS
(`stock_df['range'] = stock_df['PLUS_HAUT'] - stock_df['PLUS_BAS']`). -/
def rangeList (rows : List Row) : List ℚ :=
  rows.map (fun r => r.haut - r.bas)

/-- Trailing window of width 5 ending at index i (pandas
`rolling(window=5, min_periods=1)`): the elements at indices
max(0, i-4) .. i. -/
def window5 (l : List ℚ) (i : ℕ) : List ℚ :=
  (l.take (i + 1)).drop (i + 1 - 5)

/-- `stock_df['range'].rolling(window=5, min_periods=1).mean()`: entry i is
the mean of the last up-to-5 ranges ending at row i. -/
def rollingAvgRange (rows : List Row) : List ℚ :=
  (List.range rows.length).map
    (fun i => (window5 (rangeList rows) i).sum / (window5 (rangeList rows) i).length)

/-- The per-row liquidity series of a date-sorted ticker slice: for each row,
compute_liquidity of its volume, close and rolling 5-day average range. -/
noncomputable def liqSeries (rows : List Row) : List (Option ℝ) :=
  List.zipWith (fun r a => compute_liquidity r.volume r.cloture a)
    rows (rollingAvgRange rows)

/-- The finite entries of the liquidity series, in order
(the `if np.isfinite(liq_val): liq.append(liq_val)` loop). -/
noncomputable def finiteLiq (rows : List Row) : List ℝ :=
  (liqSeries rows).filterMap id

/-- Minimum of a list of reals (Python `min`; 0 for the empty list, on which
the source never calls it). -/
noncomputable def minList : List ℝ → ℝ
  | [] => 0
  | x :: xs => xs.foldl min x

/-- Maximum of a list of reals (0 for the empty list). -/
noncomputable def maxList : List ℝ → ℝ
  | [] => 0
  | x :: xs => xs.foldl max x

/-- The historical liquidity distribution of one ticker slice: all finite
liquidity values, plus the sentinel floor `min(liq) - 1.0` appended only
when at least one finite value exists (`if len(liq) > 0`). -/
noncomputable def histLiqList (rows : List Row) : List ℝ :=
  if (finiteLiq rows).isEmpty then []
  else finiteLiq rows ++ [minList (finiteLiq rows) - 1]

/-- The historical_liquidity dictionary built by feature_engineer from the
historical table only (before the new day is concatenated): defined for
exactly the codes present in the historical table. -/
noncomputable def historicalLiquidity (hist : List Row) (c : ℕ) : Option (List ℝ) :=
  if (hist.map Row.code).contains c then some (histLiqList (rowsOf c hist)) else none

/-- scipy.stats.percentileofscore with the default kind='rank'
(left = #{a < score}, right = #{a <= score},
pct = (left + right + [left < right]) * 50 / n), returning none (NaN) for
an empty distribution. -/
noncomputable def percentileofscore (dist : List ℝ) (x : ℝ) : Option ℚ :=
  if dist.isEmpty then none
  else
    some (((dist.countP (fun a => decide (a < x)) : ℚ) +
      dist.countP (fun a => decide (a ≤ x)) +
      (if dist.countP (fun a => decide (a < x)) < dist.countP (fun a => decide (a ≤ x))
        then 1 else 0)) * 50 / dist.length)

/-- The PROB_LIQUIDITY of one row given its ticker's historical distribution
and its (possibly non-finite) liquidity value:
`percentileofscore(hist_liq, liquidity_val) / 100.0` when the value is
finite, else exactly 0. -/
noncomputable def probForRow (dist : List ℝ) (liq : Option ℝ) : Option ℚ :=
  match liq with
  | none => some 0
  | some x => (percentileofscore dist x).map (fun p => p / 100)

/-- The PROB_LIQUIDITY column feature_engineer assigns to the date-sorted
combined (history ++ new day) slice of ticker c.  Codes absent from the
historical_liquidity dictionary are skipped (`continue`), leaving NaN. -/
noncomputable def probsFor (hist newd : List Row) (c : ℕ) : List (Option ℚ) :=
  match historicalLiquidity hist c with
  | none => (rowsOf c (hist ++ newd)).map (fun _ => none)
  | some dist => (liqSeries (rowsOf c (hist ++ newd))).map (probForRow dist)

/-- The liquidity-related outputs of feature_engineer(market_df, ...,
historical_df): the historical liquidity dictionary (built from the
historical table alone) and, per ticker, the PROB_LIQUIDITY column of the
combined table.  The other engineered columns do not feed back into these
two outputs and are omitted. -/
noncomputable def feature_engineer (hist newd : List Row) :
    (ℕ → Option (List ℝ)) × (ℕ → List (Option ℚ)) :=
  (historicalLiquidity hist, fun c => probsFor hist newd c)

/-! ## Forecaster (forecast in real_time_utils.py) -/

/-- HORIZON = 5. -/
def HORIZON : ℕ := 5

/-- The fixed 2026 holiday list of forecast, as day numbers (day 0 =
Monday 2025-12-29): Jan 1 = 3, Mar 20/21/22 = 81/82/83, Apr 9 = 101,
Apr 27/28 = 119/120, May 1 = 123, Jun 16 = 169, Jul 25 = 208,
Aug 13 = 227, Aug 25 = 239, Oct 15 = 290, Dec 17 = 353. -/
def holidays2026 : List ℤ :=
  [3, 81, 82, 83, 101, 119, 120, 123, 169, 208, 227, 239, 290, 353]

/-- All Saturdays and Sundays of 2026 (`pd.date_range('2026-01-01',
'2026-12-31')` filtered on `dayofweek >= 5`): days 3..367 with
d % 7 ∈ {5, 6}. -/
def weekends2026 : List ℤ :=
  (List.map (fun (i : ℕ) => (i : ℤ) + 3) (List.range 365)).filter (fun d => 5 ≤ d % 7)

/-- non_trading_days_2026: the holidays together with all 2026 weekend
days.  The source sorts and deduplicates; only set membership is ever
used, which is unaffected. -/
def nonTradingDays2026 : List ℤ :=
  holidays2026 ++ weekends2026

/-- The date-collection loop of forecast: starting at `candidate`, walk
forward one day at a time, keeping days not in non_trading_days_2026,
until `need` dates are collected.  The loop of the source is unbounded;
here it carries fuel, and `collectDates_spec` below shows that fuel 400
is never exhausted (the non-trading list has fewer than 395 entries), so
the bounded function agrees with the source's loop on every input. -/
def collectDates : ℕ → ℤ → ℕ → List ℤ
  | 0, _, _ => []
  | fuel + 1, candidate, need =>
    if need = 0 then []
    else if candidate ∈ nonTradingDays2026 then collectDates fuel (candidate + 1) need
    else candidate :: collectDates fuel (candidate + 1) (need - 1)

/-- forecast_dates: the next HORIZON valid trading days strictly after
last_date. -/
def forecast_dates (lastDate : ℤ) : List ℤ :=
  collectDates 400 (lastDate + 1) HORIZON

/-- `dataset['SEANCE'].max()` (0 for an empty table, on which the source
never operates). -/
def maxDate (t : List Row) : ℤ :=
  match t.map Row.seance with
  | [] => 0
  | x :: xs => xs.foldl max x

/-- One forecast output row (columns SEANCE, CODE, CLOTURE, VOLUME,
VAR_CLOTURE, VAR_VOLUME, PROB_LIQUIDITY). -/
structure FRow where
  seance : ℤ
  code : ℕ
  cloture : ℚ
  volume : ℤ
  varCloture : ℚ
  varVolume : ℚ
  probLiquidity : ℚ
deriving DecidableEq, Repr

/-- Python round-half-to-even of a rational to an integer (the rounding
of `round` on floats, ignoring binary representation error). -/
def roundHalfEven (x : ℚ) : ℤ :=
  if x - ⌊x⌋ < 1 / 2 then ⌊x⌋
  else if 1 / 2 < x - ⌊x⌋ then ⌊x⌋ + 1
  else if 2 ∣ ⌊x⌋ then ⌊x⌋ else ⌊x⌋ + 1

/-- Python `round(x, n)`. -/
def roundTo (n : ℕ) (x : ℚ) : ℚ :=
  (roundHalfEven (x * 10 ^ n) : ℚ) / 10 ^ n

/-- One iteration of the `for h in range(HORIZON)` loop of forecast: the
forecast row of step h given the previous day's close/volume.  The
liquidity probability defaults to 0 and is computed only when the
ticker's historical distribution exists and is nonempty
(`if hist_liq is not None and len(hist_liq) > 0`). -/
noncomputable def forecastStep (c : ℕ) (dist : Option (List ℝ)) (avgRange : ℚ)
    (fc fv : ℚ) (date : ℤ) (prevC prevV : ℚ) : FRow :=
  let varC : ℚ := if prevC ≠ 0 then (fc - prevC) / prevC else 0
  let varV : ℚ := if prevV ≠ 0 then (fv - prevV) / prevV else 0
  let prob : ℚ :=
    match dist with
    | some d =>
      if d.isEmpty then 0
      else
        match compute_liquidity fv fc avgRange with
        | some x => ((percentileofscore d x).getD 0) / 100
        | none => 0
    | none => 0
  { seance := date, code := c, cloture := roundTo 3 fc,
    volume := roundHalfEven fv, varCloture := roundTo 6 varC,
    varVolume := roundTo 6 varV, probLiquidity := roundTo 4 prob }

/-- The inner `for h in range(HORIZON)` loop of forecast: emits one FRow
per step, chaining prev_close/prev_volume.  `fcC`/`fcV` are the
forecasted close/volume indexed by step, `dates` the forecast dates. -/
noncomputable def forecastLoop (c : ℕ) (dist : Option (List ℝ)) (avgRange : ℚ)
    (fcC fcV : ℕ → ℚ) (dates : List ℤ) :
    List ℕ → ℚ → ℚ → List FRow
  | [], _, _ => []
  | h :: hs, prevC, prevV =>
    forecastStep c dist avgRange (fcC h) (fcV h) (dates.getD h 0) prevC prevV ::
      forecastLoop c dist avgRange fcC fcV dates hs (fcC h) (fcV h)

/-- A per-ticker, per-signal model store entry.  A successfully loaded and
applied ARIMA + XGBoost pair is abstracted as the function sending the
step index to its combined point forecast (`arima.forecast(5) + xgb_pred`,
which depends only on the ticker's series and last feature row, both
fixed per call); none models any exception raised while loading or
applying the pair, which the source catches. -/
def ModelStore : Type :=
  ℕ → Option (ℕ → ℚ) × Option (ℕ → ℚ)

/-- origin_close: the CLOTURE of the ticker's last (most recent) row. -/
def originCloseOf (rows : List Row) : ℚ :=
  ((rows.getLast?).map Row.cloture).getD 0

/-- origin_volume: the QUANTITE_NEGOCIEE of the ticker's last row. -/
def originVolOf (rows : List Row) : ℚ :=
  ((rows.getLast?).map Row.volume).getD 0

/-- last_avg_range: the mean of the last (up to) 5 trading ranges
(`(PLUS_HAUT - PLUS_BAS).tail(5).mean()`). -/
def lastAvgRangeOf (rows : List Row) : ℚ :=
  ((rangeList rows).drop ((rangeList rows).length - 5)).sum /
    ((rangeList rows).drop ((rangeList rows).length - 5)).length

/-- forecasted_close: the loaded models' prediction on success, else the
flat fallback `np.full(HORIZON, origin_close)`. -/
def fcCloseOf (pm : Option (ℕ → ℚ)) (rows : List Row) : ℕ → ℚ :=
  match pm with
  | some f => f
  | none => fun _ => originCloseOf rows

/-- forecasted_volume: the loaded models' prediction floored at 0
(`np.maximum(..., 0)`) on success, else the flat fallback
`np.full(HORIZON, origin_volume)` (the floor is applied only in the
success branch, as in the source). -/
def fcVolOf (vm : Option (ℕ → ℚ)) (rows : List Row) : ℕ → ℚ :=
  match vm with
  | some f => fun h => max (f h) 0
  | none => fun _ => originVolOf rows

/-- The body of forecast's per-ticker loop.  Tickers with fewer than 20
rows in the combined table are skipped. -/
noncomputable def forecastTicker (dates : List ℤ) (c : ℕ) (rows : List Row)
    (pm vm : Option (ℕ → ℚ)) (dist : Option (List ℝ)) : List FRow :=
  if rows.length < 20 then []
  else
    forecastLoop c dist (lastAvgRangeOf rows) (fcCloseOf pm rows) (fcVolOf vm rows)
      dates (List.range HORIZON) (originCloseOf rows) (originVolOf rows)

/-- forecast(processed_df, models_path, historical_liquidity): walks the
distinct tickers of the combined table and emits each eligible ticker's
HORIZON forecast rows.  (`CODE.unique()` visits every code exactly once;
the source's final `sort_values(['CODE','SEANCE'])` only permutes the
emitted rows and is omitted, the claims being per-ticker row-set
properties.) -/
noncomputable def forecast (ds : List Row) (store : ModelStore)
    (histLiq : ℕ → Option (List ℝ)) : List FRow :=
  ((ds.map Row.code).dedup).flatMap
    (fun c => forecastTicker (forecast_dates (maxDate ds)) c (rowsOf c ds)
      (store c).1 (store c).2 (histLiq c))

/-! ## Anomaly detector (detect_anomalies_with_params,
link_anomalies_to_news in real_time_utils.py) -/

/-- The frozen per-ticker anomaly parameters (one entry of
anomaly_params). -/
structure AnomalyParams where
  volumeMean : ℚ
  volumeStd : ℚ
  volumeThreshold : ℚ
  variationMean : ℚ
  variationStd : ℚ
  variationThreshold : ℚ
deriving DecidableEq, Repr

/-- One row of the frame given to the anomaly detector, restricted to the
columns it reads: CODE, SEANCE, QUANTITE_NEGOCIEE, VARIATION,
Article_Count and Mean_Weighted_Sentiment. -/
structure MRow where
  code : ℕ
  seance : ℤ
  quantite : ℚ
  variation : ℚ
  articleCount : ℚ
  sentiment : ℚ
deriving DecidableEq, Repr

/-- An MRow enriched with the four columns detect_anomalies_with_params
adds: volume_z_score, VOLUME_Anomaly, variation_z_score and
VARIATION_ANOMALY. -/
structure ZRow extends MRow where
  volumeZ : ℚ
  volumeAnomaly : ℕ
  variationZ : ℚ
  variationAnomaly : ℕ
deriving DecidableEq, Repr

/-- detect_anomalies_with_params on one row: columns are initialized to 0
and set only for codes present in the parameter dictionary; the z-score
columns are additionally set only when the corresponding frozen std is
positive, while the flags are always computed from the (possibly still 0)
z-score:
`VOLUME_Anomaly = int(volume_z_score > volume_threshold)` and
`VARIATION_ANOMALY = int(|variation_z_score| > variation_threshold)`. -/
def detectRow (params : ℕ → Option AnomalyParams) (r : MRow) : ZRow :=
  match params r.code with
  | none =>
    { r with volumeZ := 0, volumeAnomaly := 0, variationZ := 0, variationAnomaly := 0 }
  | some p =>
    let vz : ℚ := if 0 < p.volumeStd then (r.quantite - p.volumeMean) / p.volumeStd else 0
    let rz : ℚ := if 0 < p.variationStd then (r.variation - p.variationMean) / p.variationStd else 0
    { r with
      volumeZ := vz
      volumeAnomaly := if p.volumeThreshold < vz then 1 else 0
      variationZ := rz
      variationAnomaly := if p.variationThreshold < |rz| then 1 else 0 }

/-- detect_anomalies_with_params(df, anomaly_params): row-wise enrichment
of the frame. -/
def detect_anomalies_with_params (rows : List MRow) (params : ℕ → Option AnomalyParams) :
    List ZRow :=
  rows.map (detectRow params)

/-- A ZRow enriched with the four news-attribution flags added by
link_anomalies_to_news. -/
structure NRow extends ZRow where
  variationPostNews : ℕ
  variationPreNews : ℕ
  volumePostNews : ℕ
  volumePreNews : ℕ
deriving DecidableEq, Repr

/-- `rolling(window=w, min_periods=1).sum().shift(1).fillna(0) > 0` at
index i: whether any of the entries at indices i-w .. i-1 is positive. -/
def priorFlag (w : ℕ) (xs : List ℕ) (i : ℕ) : Bool :=
  0 < ((xs.take i).drop (i - w)).sum

/-- The mirrored forward-looking version (reverse, shifted rolling sum,
reverse): whether any of the entries at indices i+1 .. i+w is positive. -/
def futureFlag (w : ℕ) (xs : List ℕ) (i : ℕ) : Bool :=
  0 < ((xs.drop (i + 1)).take w).sum

/-- has_news indicator column: Article_Count > 0. -/
def hasNewsList (l : List ZRow) : List ℕ :=
  l.map (fun r => if 0 < r.articleCount then 1 else 0)

/-- news_pos indicator column: Article_Count > 0 and
Mean_Weighted_Sentiment > 0. -/
def newsPosList (l : List ZRow) : List ℕ :=
  l.map (fun r => if 0 < r.articleCount ∧ 0 < r.sentiment then 1 else 0)

/-- news_neg indicator column: Article_Count > 0 and
Mean_Weighted_Sentiment < 0. -/
def newsNegList (l : List ZRow) : List ℕ :=
  l.map (fun r => if 0 < r.articleCount ∧ r.sentiment < 0 then 1 else 0)

/-- The news-attribution flags of the row at index i of one date-sorted
ticker group, with news window w: a VARIATION anomaly is POST_NEWS when
its direction matches prior news sentiment, and PRE_NEWS when it is not
POST_NEWS and its direction matches future news sentiment; a VOLUME
anomaly is POST_NEWS on any prior news and PRE_NEWS when not POST_NEWS
and any future news exists. -/
def linkRow (w : ℕ) (l : List ZRow) (i : ℕ) (r : ZRow) : NRow :=
  let varPost : ℕ :=
    if r.variationAnomaly = 1 ∧
        ((0 < r.variationZ ∧ priorFlag w (newsPosList l) i) ∨
         (r.variationZ < 0 ∧ priorFlag w (newsNegList l) i)) then 1 else 0
  let varPre : ℕ :=
    if r.variationAnomaly = 1 ∧ varPost = 0 ∧
        ((0 < r.variationZ ∧ futureFlag w (newsPosList l) i) ∨
         (r.variationZ < 0 ∧ futureFlag w (newsNegList l) i)) then 1 else 0
  let volPost : ℕ :=
    if r.volumeAnomaly = 1 ∧ priorFlag w (hasNewsList l) i then 1 else 0
  let volPre : ℕ :=
    if r.volumeAnomaly = 1 ∧ volPost = 0 ∧ futureFlag w (hasNewsList l) i then 1 else 0
  { r with
    variationPostNews := varPost
    variationPreNews := varPre
    volumePostNews := volPost
    volumePreNews := volPre }

/-- link_anomalies_to_news restricted to one date-sorted ticker group (all
the rolling transforms of the source are per-CODE). -/
def linkGroup (w : ℕ) (l : List ZRow) : List NRow :=
  l.mapIdx (fun i r => linkRow w l i r)

/-- Insert a ZRow into a list sorted by ascending SEANCE. -/
def insertZRow (r : ZRow) : List ZRow → List ZRow
  | [] => [r]
  | s :: ss => if r.seance < s.seance then r :: s :: ss else s :: insertZRow r ss

/-- Sort a list of ZRows by ascending SEANCE. -/
def sortZByDate : List ZRow → List ZRow
  | [] => []
  | r :: rs => insertZRow r (sortZByDate rs)

/-- link_anomalies_to_news(df, news_window=3): sorts by (CODE, SEANCE) and
computes the four flags per ticker group.  (The source keeps the enriched
rows in frame order; here they are emitted group by group, which permutes
but does not change the set of output rows.) -/
def link_anomalies_to_news (w : ℕ) (df : List ZRow) : List NRow :=
  ((df.map (fun r => r.code)).dedup).flatMap
    (fun c => linkGroup w (sortZByDate (df.filter (fun r => r.code == c))))

/-! ## Market-mood scorer (calc_daily_score in real_time_utils.py) -/

/-- The frozen global score-normalization parameters
(market_mood_params.json). -/
structure ScoreParams where
  tunindexRetMean : ℚ
  tunindexRetStd : ℚ
  tunindex20RetMean : ℚ
  tunindex20RetStd : ℚ
  intensityP10 : ℚ
  intensityP90 : ℚ
  sentimentMean : ℚ
  sentimentStd : ℚ
deriving DecidableEq, Repr

/-- One row of the frame given to calc_daily_score, restricted to the
columns it reads: SEANCE, TUNINDEX_INDICE_JOUR, TUNINDEX20_INDICE_JOUR,
VARIATION, PROB_LIQUIDITY (possibly NaN) and Mean_Weighted_Sentiment. -/
structure SRow where
  seance : ℤ
  tunindex : ℚ
  tunindex20 : ℚ
  variation : ℚ
  probLiquidity : Option ℚ
  sentiment : ℚ
deriving DecidableEq, Repr

/-- One row of the per-date market_daily frame with the five sub-scores
and the composite. -/
structure ScoreRow where
  seance : ℤ
  directionScore : ℚ
  breadthScore : ℚ
  liquidityScore : ℚ
  intensityScore : ℚ
  newsScore : ℚ
  marketMood : ℚ
deriving DecidableEq, Repr

/-- `clip(0, 100)`. -/
def clip100 (x : ℚ) : ℚ := max 0 (min 100 x)

/-- The sorted distinct dates of the frame (pandas groupby('SEANCE')
sorts the group keys ascending). -/
def datesOfS (df : List SRow) : List ℤ :=
  ((df.map SRow.seance).dedup).mergeSort (fun a b => a ≤ b)

/-- The rows of one date group, in frame order. -/
def dateGroup (df : List SRow) (d : ℤ) : List SRow :=
  df.filter (fun r => r.seance == d)

/-- groupby('SEANCE').first() for the index columns: the first row of the
group in frame order. -/
def firstOfDate (df : List SRow) (d : ℤ) : SRow :=
  ((df.find? (fun r => r.seance == d)).getD
    { seance := d, tunindex := 0, tunindex20 := 0, variation := 0,
      probLiquidity := none, sentiment := 0 })

/-- The market_daily TUNINDEX pct_change series: entry i is
(x_i - x_(i-1)) / x_(i-1) over the sorted dates, with the first entry
fillna(0).  (A zero previous level yields 0 here where float division
would produce an infinity; both land inside [0,100] after clipping.) -/
def retSeries (xs : List ℚ) : List ℚ :=
  (List.range xs.length).map
    (fun i => if i = 0 then 0 else (xs.getD i 0 - xs.getD (i - 1) 0) / xs.getD (i - 1) 0)

/-- DirectionScore of date index i:
clip(50 + 25 z(TUNINDEX_RET) + 25 z(TUNINDEX20_RET), 0, 100), z-scored
against the frozen means/stds (z = 0 when the frozen std is not
positive). -/
def directionScoreAt (p : ScoreParams) (df : List SRow) (i : ℕ) : ℚ :=
  let ds := datesOfS df
  let ret1 := retSeries (ds.map (fun d => (firstOfDate df d).tunindex))
  let ret2 := retSeries (ds.map (fun d => (firstOfDate df d).tunindex20))
  let z1 : ℚ := if 0 < p.tunindexRetStd then (ret1.getD i 0 - p.tunindexRetMean) / p.tunindexRetStd else 0
  let z2 : ℚ := if 0 < p.tunindex20RetStd then (ret2.getD i 0 - p.tunindex20RetMean) / p.tunindex20RetStd else 0
  clip100 (50 + 25 * z1 + 25 * z2)

/-- BreadthScore of date d: the percentage of the date's rows with
positive VARIATION (`(x > 0).mean() * 100`). -/
def breadthScoreAt (df : List SRow) (d : ℤ) : ℚ :=
  100 * ((dateGroup df d).filter (fun r => decide (0 < r.variation))).length /
    (dateGroup df d).length

/-- IntensityScore of date d:
clip(100 (mean |VARIATION| - P10) / (P90 - P10), 0, 100) with the
denominator replaced by 1 when P90 - P10 is not positive. -/
def intensityScoreAt (p : ScoreParams) (df : List SRow) (d : ℤ) : ℚ :=
  let raw := ((dateGroup df d).map (fun r => |r.variation|)).sum / (dateGroup df d).length
  let denom : ℚ := if 0 < p.intensityP90 - p.intensityP10 then p.intensityP90 - p.intensityP10 else 1
  clip100 (100 * (raw - p.intensityP10) / denom)

/-- LiquidityScore of date d: the mean of the date's non-NaN
PROB_LIQUIDITY values times 100 (pandas mean skips NaN), defaulting to 50
when every value is NaN. -/
def liquidityScoreAt (df : List SRow) (d : ℤ) : ℚ :=
  let ps := (dateGroup df d).filterMap SRow.probLiquidity
  if ps.isEmpty then 50 else 100 * ps.sum / ps.length

/-- NewsScore of date d: clip(50 + 50 z(mean sentiment), 0, 100), z-scored
against the frozen sentiment mean/std (z = 0 when the frozen std is not
positive). -/
def newsScoreAt (p : ScoreParams) (df : List SRow) (d : ℤ) : ℚ :=
  let s := ((dateGroup df d).map SRow.sentiment).sum / (dateGroup df d).length
  let z : ℚ := if 0 < p.sentimentStd then (s - p.sentimentMean) / p.sentimentStd else 0
  clip100 (50 + 50 * z)

/-- The market_daily frame of calc_daily_score: one ScoreRow per distinct
date, with MarketMood = 0.30 Direction + 0.20 Breadth + 0.20 Liquidity +
0.15 Intensity + 0.15 News. -/
def dailyScores (df : List SRow) (p : ScoreParams) : List ScoreRow :=
  (List.range (datesOfS df).length).map (fun i =>
    let d := (datesOfS df).getD i 0
    let dir := directionScoreAt p df i
    let br := breadthScoreAt df d
    let liq := liquidityScoreAt df d
    let int := intensityScoreAt p df d
    let nw := newsScoreAt p df d
    { seance := d, directionScore := dir, breadthScore := br,
      liquidityScore := liq, intensityScore := int, newsScore := nw,
      marketMood := 30 / 100 * dir + 20 / 100 * br + 20 / 100 * liq +
        15 / 100 * int + 15 / 100 * nw })

/-- The maximum SEANCE of the score frame (0 if empty). -/
def maxDateS (df : List SRow) : ℤ :=
  match df.map SRow.seance with
  | [] => 0
  | x :: xs => xs.foldl max x

/-- calc_daily_score(historical_df, score_params): the per-date score rows
restricted to the latest date (the source merges them back onto the
per-ticker rows of that date; each merged row carries its date's six
score values unchanged, so the score columns of the output are exactly
those of the retained ScoreRows). -/
def calc_daily_score (df : List SRow) (p : ScoreParams) : List ScoreRow :=
  (dailyScores df p).filter (fun s => s.seance == maxDateS df)

/-! ## Idempotent append (concat_df_if_new_date in src/refresh.py and
src/utils/refresh.py) -/

/-- One row of a persisted CSV table: a normalized date (none models NaT)
plus the rest of the row, abstracted as one rational payload. -/
structure DRow where
  seance : Option ℤ
  payload : ℚ
deriving DecidableEq, Repr

/-- The set of normalized non-null dates of a table
(`set(df[date_col].dropna().unique())`; list membership models set
membership). -/
def datesOf (t : List DRow) : List ℤ :=
  t.filterMap DRow.seance

/-- concat_df_if_new_date(path, df): if every (non-null, normalized) date
of the new frame already occurs in the persisted table, leave the table
unchanged; otherwise append the new frame's rows. -/
def concat_df_if_new_date (existing df : List DRow) : List DRow :=
  if (datesOf df).all (fun d => (datesOf existing).contains d) then existing
  else existing ++ df

/-! ## Concrete tables used to instantiate the theorems -/

/-- A one-row historical table: ticker 1, day 0, high 3, low 1, close 2,
volume 1.  Its only liquidity value is log((1*2)/2) = log 1 = 0, so the
ticker's distribution is [0, -1]. -/
def exHist : List Row :=
  [{ code := 1, seance := 0, haut := 3, bas := 1, cloture := 2, volume := 1 }]

/-- A zero-volume new-day row for ticker 1, dated after exHist. -/
def exNew : List Row :=
  [{ code := 1, seance := 10, haut := 3, bas := 1, cloture := 2, volume := 0 }]

/-- A two-ticker historical table (tickers 1 and 2). -/
def exHist2 : List Row :=
  [{ code := 1, seance := 0, haut := 3, bas := 1, cloture := 2, volume := 1 },
   { code := 2, seance := 0, haut := 3, bas := 1, cloture := 2, volume := 1 }]

/-- A two-ticker new day. -/
def exNewA : List Row :=
  [{ code := 1, seance := 10, haut := 3, bas := 1, cloture := 2, volume := 5 },
   { code := 2, seance := 10, haut := 3, bas := 1, cloture := 2, volume := 7 }]

/-- The same new day with a synthetic extreme value injected into ticker
1's row only. -/
def exNewB : List Row :=
  [{ code := 1, seance := 10, haut := 3, bas := 1, cloture := 2, volume := 999999 },
   { code := 2, seance := 10, haut := 3, bas := 1, cloture := 2, volume := 7 }]

/-- A one-row historical table whose only row has zero volume: the ticker
trades not at all over its whole history. -/
def zHist : List Row :=
  [{ code := 1, seance := 0, haut := 3, bas := 1, cloture := 2, volume := 0 }]

/-- A combined table with 20 rows for ticker 1 (eligible for
forecasting) and 1 row for ticker 2 (skipped). -/
def exDs : List Row :=
  (List.range 20).map (fun i =>
    { code := 1, seance := (i : ℤ), haut := 3, bas := 1, cloture := 2, volume := 1 }) ++
  [{ code := 2, seance := 0, haut := 3, bas := 1, cloture := 2, volume := 1 }]

/-- A model store in which every load fails. -/
def noneStore : ModelStore := fun _ => (none, none)

/-- Anomaly parameters with zero stds and negative thresholds for ticker
1. -/
def cexP : AnomalyParams :=
  { volumeMean := 0, volumeStd := 0, volumeThreshold := -1,
    variationMean := 0, variationStd := 0, variationThreshold := -1 }

/-- The parameter dictionary holding cexP for ticker 1 only. -/
def cexParams : ℕ → Option AnomalyParams :=
  fun c => if c = 1 then some cexP else none

/-- A row of ticker 1 for the anomaly counterexample. -/
def cexMRow : MRow :=
  { code := 1, seance := 0, quantite := 5, variation := 5, articleCount := 0, sentiment := 0 }

/-- Ordinary anomaly parameters (positive stds and thresholds) for
ticker 1. -/
def okP : AnomalyParams :=
  { volumeMean := 10, volumeStd := 2, volumeThreshold := 2,
    variationMean := 0, variationStd := 1, variationThreshold := 2 }

/-- The parameter dictionary holding okP for ticker 1 only. -/
def okParams : ℕ → Option AnomalyParams :=
  fun c => if c = 1 then some okP else none

/-- A one-row frame for the news-linking instantiation: ticker 1 with a
variation anomaly and no news. -/
def exZ : List ZRow :=
  [{ code := 1, seance := 0, quantite := 5, variation := 5, articleCount := 0,
     sentiment := 0, volumeZ := 3, volumeAnomaly := 1, variationZ := 3,
     variationAnomaly := 1 }]

/-- A one-row score frame: one date with VARIATION 1 and PROB_LIQUIDITY
1/2. -/
def exS : List SRow :=
  [{ seance := 0, tunindex := 100, tunindex20 := 100, variation := 1,
     probLiquidity := some (1 / 2), sentiment := 0 }]

/-- Score parameters with unit stds. -/
def exSP : ScoreParams :=
  { tunindexRetMean := 0, tunindexRetStd := 1, tunindex20RetMean := 0,
    tunindex20RetStd := 1, intensityP10 := 0, intensityP90 := 1,
    sentimentMean := 0, sentimentStd := 1 }

/-- A persisted one-row table dated day 0. -/
def exT : List DRow := [{ seance := some 0, payload := 1 }]

/-- A new frame whose only date, day 0, is already present in exT. -/
def exDf : List DRow := [{ seance := some 0, payload := 2 }]

/-! ## Theorems -/

lemma datesOf_append (t u : List DRow) : datesOf (t ++ u) = datesOf t ++ datesOf u := by
  simp [datesOf]

lemma concat_subset_noop (t df : List DRow)
    (h : ∀ d ∈ datesOf df, d ∈ datesOf t) :
    concat_df_if_new_date t df = t := by
  unfold concat_df_if_new_date
  rw [if_pos]
  rw [List.all_eq_true]
  intro d hd
  simpa using h d hd

/-- C5: the per-table append is idempotent per date: a new frame whose
(normalized, non-null) dates are all already present leaves the persisted
table unchanged, and re-appending the same frame a second time is always
a no-op. -/
theorem concat_df_if_new_date_idempotent (t df : List DRow) :
    ((∀ d ∈ datesOf df, d ∈ datesOf t) → concat_df_if_new_date t df = t) ∧
    concat_df_if_new_date (concat_df_if_new_date t df) df = concat_df_if_new_date t df := by
  refine ⟨concat_subset_noop t df, ?_⟩
  by_cases h : ∀ d ∈ datesOf df, d ∈ datesOf t
  · rw [concat_subset_noop t df h, concat_subset_noop t df h]
  · have h1 : concat_df_if_new_date t df = t ++ df := by
      unfold concat_df_if_new_date
      rw [if_neg]
      intro hall
      rw [List.all_eq_true] at hall
      exact h (fun d hd => by simpa using hall d hd)
    rw [h1]
    exact concat_subset_noop (t ++ df) df
      (fun d hd => by rw [datesOf_append]; exact List.mem_append_right _ hd)

/-- Witness for C5 at a concrete table and frame whose single date is
already present. -/
theorem concat_df_if_new_date_idempotent_witness :
    (∀ d ∈ datesOf exDf, d ∈ datesOf exT) ∧ concat_df_if_new_date exT exDf = exT :=
  ⟨by decide, (concat_df_if_new_date_idempotent exT exDf).1 (by decide)⟩

lemma denomOf_pos (r : ℚ) : 0 < denomOf r := by
  unfold denomOf
  by_cases h0 : r + (if r = 0 then epsilon else 0) ≤ 0
  · rw [if_pos h0]
    norm_num [epsilon]
  · rw [if_neg h0]
    exact lt_of_not_le h0

lemma compute_liquidity_of_pos (v c r : ℚ) (h : 0 < v * c) :
    compute_liquidity v c r = some (Real.log ((v * c : ℚ) / (denomOf r : ℝ))) := by
  unfold compute_liquidity
  rw [if_neg (not_le.mpr h)]

/-- C9: for a fixed average range, compute_liquidity is strictly monotone
in the product volume * close over positive products, and a non-positive
product yields the non-finite value, which the scoring step always maps
to probability exactly 0. -/
theorem compute_liquidity_monotone (v1 c1 v2 c2 r : ℚ) :
    (0 < v1 * c1 → v1 * c1 < v2 * c2 →
      ∃ x y : ℝ, compute_liquidity v1 c1 r = some x ∧
        compute_liquidity v2 c2 r = some y ∧ x < y) ∧
    (v1 * c1 ≤ 0 → compute_liquidity v1 c1 r = none ∧
      ∀ dist : List ℝ, probForRow dist (compute_liquidity v1 c1 r) = some 0) := by
  constructor
  · intro h1 h2
    have h3 : 0 < v2 * c2 := lt_trans h1 h2
    have hd : (0 : ℝ) < (denomOf r : ℝ) := by exact_mod_cast denomOf_pos r
    refine ⟨_, _, compute_liquidity_of_pos v1 c1 r h1,
      compute_liquidity_of_pos v2 c2 r h3, ?_⟩
    apply Real.log_lt_log
    · apply div_pos _ hd
      exact_mod_cast h1
    · have hcast : ((v1 * c1 : ℚ) : ℝ) < ((v2 * c2 : ℚ) : ℝ) := by exact_mod_cast h2
      gcongr

  · intro h
    have he : compute_liquidity v1 c1 r = none := by
      unfold compute_liquidity
      rw [if_pos h]
    exact ⟨he, fun dist => by rw [he]; rfl⟩

/-- Witness for C9 at volume 1, close 1 against volume 2, close 2 with
range 1, and at the zero-volume case. -/
theorem compute_liquidity_monotone_witness :
    ((0 : ℚ) < 1 * 1 ∧ (1 : ℚ) * 1 < 2 * 2 ∧
      ∃ x y : ℝ, compute_liquidity 1 1 1 = some x ∧
        compute_liquidity 2 2 1 = some y ∧ x < y) ∧
    ((0 : ℚ) * 5 ≤ 0 ∧ compute_liquidity 0 5 1 = none ∧
      probForRow [] (compute_liquidity 0 5 1) = some 0) :=
  ⟨⟨by norm_num, by norm_num,
      (compute_liquidity_monotone 1 1 2 2 1).1 (by norm_num) (by norm_num)⟩,
   ⟨by norm_num, ((compute_liquidity_monotone 0 5 2 2 1).2 (by norm_num)).1,
      ((compute_liquidity_monotone 0 5 2 2 1).2 (by norm_num)).2 []⟩⟩

lemma detectRow_spec (params : ℕ → Option AnomalyParams) (r : MRow) (p : AnomalyParams)
    (hp : params r.code = some p) :
    (0 < p.volumeStd →
      (detectRow params r).volumeZ = (r.quantite - p.volumeMean) / p.volumeStd) ∧
    ((detectRow params r).volumeAnomaly = 1 ↔ p.volumeThreshold < (detectRow params r).volumeZ) ∧
    (p.volumeStd = 0 → (detectRow params r).volumeZ = 0 ∧
      (0 ≤ p.volumeThreshold → (detectRow params r).volumeAnomaly = 0)) ∧
    (0 < p.variationStd →
      (detectRow params r).variationZ = (r.variation - p.variationMean) / p.variationStd) ∧
    ((detectRow params r).variationAnomaly = 1 ↔
      p.variationThreshold < |(detectRow params r).variationZ|) ∧
    (p.variationStd = 0 → (detectRow params r).variationZ = 0 ∧
      (0 ≤ p.variationThreshold → (detectRow params r).variationAnomaly = 0)) := by
  unfold detectRow
  rw [hp]
  simp only []
  refine ⟨?_, ?_, ?_, ?_, ?_, ?_⟩
  · intro h
    rw [if_pos h]
  · split
    · next h => simp [h]
    · next h => simp [h]
  · intro h
    rw [if_neg (by rw [h]; exact lt_irrefl 0)]
    refine ⟨rfl, fun ht => ?_⟩
    rw [if_neg (not_lt.mpr ht)]
  · intro h
    rw [if_pos h]
  · split
    · next h => simp [h]
    · next h => simp [h]
  · intro h
    rw [if_neg (by rw [h]; exact lt_irrefl 0)]
    refine ⟨rfl, fun ht => ?_⟩
    rw [if_neg (by simpa using not_lt.mpr ht)]

/-- C7 (amended): for every row of a ticker present in the frozen anomaly
parameters, the z-scores are the frozen-parameter z-scores when the
frozen std is positive, the volume flag is set exactly when the volume
z-score exceeds its threshold (one-sided) and the variation flag exactly
when the absolute variation z-score exceeds its threshold (two-sided);
when a frozen std is 0 the z-score is 0 and — provided that metric's
threshold is nonnegative — the flag is 0.  (The unamended claim fails for
a negative frozen threshold: the flag is then always 1.) -/
theorem detect_anomalies_zscore_spec (rows : List MRow) (params : ℕ → Option AnomalyParams) :
    ∀ z ∈ detect_anomalies_with_params rows params, ∀ p, params z.code = some p →
      (0 < p.volumeStd → z.volumeZ = (z.quantite - p.volumeMean) / p.volumeStd) ∧
      (z.volumeAnomaly = 1 ↔ p.volumeThreshold < z.volumeZ) ∧
      (p.volumeStd = 0 → z.volumeZ = 0 ∧ (0 ≤ p.volumeThreshold → z.volumeAnomaly = 0)) ∧
      (0 < p.variationStd → z.variationZ = (z.variation - p.variationMean) / p.variationStd) ∧
      (z.variationAnomaly = 1 ↔ p.variationThreshold < |z.variationZ|) ∧
      (p.variationStd = 0 → z.variationZ = 0 ∧
        (0 ≤ p.variationThreshold → z.variationAnomaly = 0)) := by
  intro z hz p hp
  unfold detect_anomalies_with_params at hz
  rw [List.mem_map] at hz
  obtain ⟨r, hr, rfl⟩ := hz
  have hcode : (detectRow params r).code = r.code := by
    unfold detectRow
    cases params r.code <;> rfl
  rw [hcode] at hp
  have hq : (detectRow params r).quantite = r.quantite := by
    unfold detectRow
    cases params r.code <;> rfl
  have hv : (detectRow params r).variation = r.variation := by
    unfold detectRow
    cases params r.code <;> rfl
  rw [hq, hv]
  exact detectRow_spec params r p hp

/-- C7 counterexample: with frozen volume std 0 and volume threshold -1,
the volume z-score is 0 but VOLUME_Anomaly is 1, refuting the claim that
a zero frozen std forces the anomaly flag to 0. -/
theorem detect_anomalies_negative_threshold_cex :
    cexP.volumeStd = 0 ∧ cexParams 1 = some cexP ∧
    (detect_anomalies_with_params [cexMRow] cexParams).map
      (fun z => (z.volumeZ, z.volumeAnomaly)) = [(0, 1)] := by
  refine ⟨rfl, rfl, ?_⟩
  decide

/-- Witness for C7 at an ordinary parameter set (positive stds and
thresholds) and a concrete row. -/
theorem detect_anomalies_zscore_spec_witness :
    ((detectRow okParams cexMRow) ∈ detect_anomalies_with_params [cexMRow] okParams ∧
      okParams (detectRow okParams cexMRow).code = some okP) ∧
    ((detectRow okParams cexMRow).volumeAnomaly = 1 ↔
      okP.volumeThreshold < (detectRow okParams cexMRow).volumeZ) :=
  ⟨⟨List.Mem.head _, rfl⟩,
    ((detect_anomalies_zscore_spec [cexMRow] okParams (detectRow okParams cexMRow)
      (List.Mem.head _) okP rfl).2).1⟩

lemma linkRow_spec (w : ℕ) (l : List ZRow) (i : ℕ) (r : ZRow) :
    ¬((linkRow w l i r).variationPostNews = 1 ∧ (linkRow w l i r).variationPreNews = 1) ∧
    ¬((linkRow w l i r).volumePostNews = 1 ∧ (linkRow w l i r).volumePreNews = 1) ∧
    ((linkRow w l i r).variationPreNews = 1 → (linkRow w l i r).variationPostNews = 0) ∧
    ((linkRow w l i r).volumePreNews = 1 → (linkRow w l i r).volumePostNews = 0) ∧
    ((linkRow w l i r).variationAnomaly = 0 →
      (linkRow w l i r).variationPostNews = 0 ∧ (linkRow w l i r).variationPreNews = 0) ∧
    ((linkRow w l i r).volumeAnomaly = 0 →
      (linkRow w l i r).volumePostNews = 0 ∧ (linkRow w l i r).volumePreNews = 0) := by
  unfold linkRow
  split_ifs <;> simp_all

/-- C6: in the anomaly detector's output, the POST_NEWS and PRE_NEWS
variants of a flag are never both 1, each PRE_NEWS flag is set only where
the POST_NEWS flag did not trigger, and all four news flags are 0 on rows
whose base anomaly flag is 0. -/
theorem anomaly_news_flags_exclusive (w : ℕ) (df : List ZRow) :
    ∀ r ∈ link_anomalies_to_news w df,
      ¬(r.variationPostNews = 1 ∧ r.variationPreNews = 1) ∧
      ¬(r.volumePostNews = 1 ∧ r.volumePreNews = 1) ∧
      (r.variationPreNews = 1 → r.variationPostNews = 0) ∧
      (r.volumePreNews = 1 → r.volumePostNews = 0) ∧
      (r.variationAnomaly = 0 → r.variationPostNews = 0 ∧ r.variationPreNews = 0) ∧
      (r.volumeAnomaly = 0 → r.volumePostNews = 0 ∧ r.volumePreNews = 0) := by
  intro r hr
  unfold link_anomalies_to_news at hr
  rw [List.mem_flatMap] at hr
  obtain ⟨c, _, hr⟩ := hr
  unfold linkGroup at hr
  rw [List.mapIdx_eq_enum_map, List.mem_map] at hr
  obtain ⟨⟨i, z⟩, _, rfl⟩ := hr
  exact linkRow_spec w _ i z

/-- Witness for C6 at a concrete one-row frame carrying a variation and a
volume anomaly. -/
theorem anomaly_news_flags_exclusive_witness :
    ∃ r, r ∈ link_anomalies_to_news 3 exZ ∧
      (¬(r.variationPostNews = 1 ∧ r.variationPreNews = 1) ∧
       ¬(r.volumePostNews = 1 ∧ r.volumePreNews = 1) ∧
       (r.variationPreNews = 1 → r.variationPostNews = 0) ∧
       (r.volumePreNews = 1 → r.volumePostNews = 0) ∧
       (r.variationAnomaly = 0 → r.variationPostNews = 0 ∧ r.variationPreNews = 0) ∧
       (r.volumeAnomaly = 0 → r.volumePostNews = 0 ∧ r.volumePreNews = 0)) :=
  ⟨_, List.Mem.head _, anomaly_news_flags_exclusive 3 exZ _ (List.Mem.head _)⟩

lemma clip100_bounds (x : ℚ) : 0 ≤ clip100 x ∧ clip100 x ≤ 100 :=
  ⟨le_max_left 0 _, max_le (by norm_num) (min_le_left 100 x)⟩

lemma breadth_bounds (df : List SRow) (d : ℤ) :
    0 ≤ breadthScoreAt df d ∧ breadthScoreAt df d ≤ 100 := by
  unfold breadthScoreAt
  constructor
  · positivity
  · rcases Nat.eq_zero_or_pos (dateGroup df d).length with hn | hn
    · rw [hn]
      norm_num
    · have hk : ((dateGroup df d).filter (fun r => decide (0 < r.variation))).length ≤
          (dateGroup df d).length := List.length_filter_le _ _
      rw [div_le_iff₀ (by exact_mod_cast hn)]
      calc (100 : ℚ) * ((dateGroup df d).filter (fun r => decide (0 < r.variation))).length
          ≤ 100 * (dateGroup df d).length := by
            apply mul_le_mul_of_nonneg_left _ (by norm_num)
            exact_mod_cast hk
        _ = 100 * (dateGroup df d).length := rfl

lemma liquidity_bounds (df : List SRow) (d : ℤ)
    (h : ∀ r ∈ df, ∀ q, r.probLiquidity = some q → 0 ≤ q ∧ q ≤ 1) :
    0 ≤ liquidityScoreAt df d ∧ liquidityScoreAt df d ≤ 100 := by
  unfold liquidityScoreAt
  have hall : ∀ x ∈ (dateGroup df d).filterMap SRow.probLiquidity, 0 ≤ x ∧ x ≤ 1 := by
    intro x hx
    rw [List.mem_filterMap] at hx
    obtain ⟨r, hr, hrx⟩ := hx
    exact h r (List.mem_of_mem_filter hr) x hrx
  set ps := (dateGroup df d).filterMap SRow.probLiquidity with hps
  by_cases he : ps.isEmpty
  · rw [if_pos he]
    norm_num
  · rw [if_neg he]
    have hlen : 0 < ps.length := by
      rw [List.isEmpty_iff] at he
      exact List.length_pos.mpr he
    have hsum0 : 0 ≤ ps.sum := List.sum_nonneg (fun x hx => (hall x hx).1)
    have hsum1 : ps.sum ≤ (ps.length : ℚ) := by
      have := List.sum_le_card_nsmul ps 1 (fun x hx => (hall x hx).2)
      simpa using this
    constructor
    · positivity
    · rw [div_le_iff₀ (by exact_mod_cast hlen)]
      nlinarith [hsum1]

/-- C10 (implicit claim): whenever every non-NaN PROB_LIQUIDITY of the
input lies in [0,1], every row produced by calc_daily_score has its five
sub-scores and the composite MarketMood in [0,100]. -/
theorem daily_scores_bounded (df : List SRow) (p : ScoreParams)
    (hprob : ∀ r ∈ df, ∀ q, r.probLiquidity = some q → 0 ≤ q ∧ q ≤ 1) :
    ∀ s ∈ calc_daily_score df p,
      (0 ≤ s.directionScore ∧ s.directionScore ≤ 100) ∧
      (0 ≤ s.breadthScore ∧ s.breadthScore ≤ 100) ∧
      (0 ≤ s.liquidityScore ∧ s.liquidityScore ≤ 100) ∧
      (0 ≤ s.intensityScore ∧ s.intensityScore ≤ 100) ∧
      (0 ≤ s.newsScore ∧ s.newsScore ≤ 100) ∧
      (0 ≤ s.marketMood ∧ s.marketMood ≤ 100) := by
  intro s hs
  unfold calc_daily_score at hs
  have hs2 := List.mem_of_mem_filter hs
  unfold dailyScores at hs2
  rw [List.mem_map] at hs2
  obtain ⟨i, _, rfl⟩ := hs2
  have hdir := clip100_bounds (50 + 25 *
    (if 0 < p.tunindexRetStd then
      ((retSeries ((datesOfS df).map (fun d => (firstOfDate df d).tunindex))).getD i 0 -
        p.tunindexRetMean) / p.tunindexRetStd else 0) + 25 *
    (if 0 < p.tunindex20RetStd then
      ((retSeries ((datesOfS df).map (fun d => (firstOfDate df d).tunindex20))).getD i 0 -
        p.tunindex20RetMean) / p.tunindex20RetStd else 0))
  have hbr := breadth_bounds df ((datesOfS df).getD i 0)
  have hliq := liquidity_bounds df ((datesOfS df).getD i 0) hprob
  have hint := clip100_bounds (100 * ((((dateGroup df ((datesOfS df).getD i 0)).map
    (fun r => |r.variation|)).sum / (dateGroup df ((datesOfS df).getD i 0)).length) -
      p.intensityP10) /
    (if 0 < p.intensityP90 - p.intensityP10 then p.intensityP90 - p.intensityP10 else 1))
  have hnw := clip100_bounds (50 + 50 *
    (if 0 < p.sentimentStd then
      ((((dateGroup df ((datesOfS df).getD i 0)).map SRow.sentiment).sum /
        (dateGroup df ((datesOfS df).getD i 0)).length) - p.sentimentMean) / p.sentimentStd
      else 0))
  refine ⟨?_, ?_, ?_, ?_, ?_, ?_⟩
  · exact hdir
  · exact hbr
  · exact hliq
  · exact hint
  · exact hnw
  · constructor
    · simp only [directionScoreAt, intensityScoreAt, newsScoreAt]
      have h1 := hdir.1
      have h2 := hbr.1
      have h3 := hliq.1
      have h4 := hint.1
      have h5 := hnw.1
      unfold directionScoreAt intensityScoreAt newsScoreAt at *
      linarith
    · have h1 := hdir.2
      have h2 := hbr.2
      have h3 := hliq.2
      have h4 := hint.2
      have h5 := hnw.2
      unfold directionScoreAt intensityScoreAt newsScoreAt at *
      linarith

/-- Witness for C10 at a concrete one-row frame with PROB_LIQUIDITY
1/2. -/
theorem daily_scores_bounded_witness :
    (∀ r ∈ exS, ∀ q, r.probLiquidity = some q → 0 ≤ q ∧ q ≤ 1) ∧
    (∀ s ∈ calc_daily_score exS exSP,
      (0 ≤ s.directionScore ∧ s.directionScore ≤ 100) ∧
      (0 ≤ s.breadthScore ∧ s.breadthScore ≤ 100) ∧
      (0 ≤ s.liquidityScore ∧ s.liquidityScore ≤ 100) ∧
      (0 ≤ s.intensityScore ∧ s.intensityScore ≤ 100) ∧
      (0 ≤ s.newsScore ∧ s.newsScore ≤ 100) ∧
      (0 ≤ s.marketMood ∧ s.marketMood ≤ 100)) := by
  have hp : ∀ r ∈ exS, ∀ q, r.probLiquidity = some q → 0 ≤ q ∧ q ≤ 1 := by
    intro r hr q hq
    simp only [exS, List.mem_singleton] at hr
    subst hr
    simp only [] at hq
    rw [Option.some_inj] at hq
    subst hq
    norm_num
  exact ⟨hp, daily_scores_bounded exS exSP hp⟩

lemma countP_le_succ_of_mem (cand : ℤ) (l : List ℤ) (hc : cand ∈ l) :
    l.countP (fun d => decide (cand + 1 ≤ d)) < l.countP (fun d => decide (cand ≤ d)) := by
  induction l with
  | nil => cases hc
  | cons a t ih =>
    rw [List.countP_cons, List.countP_cons]
    have hmono : t.countP (fun d => decide (cand + 1 ≤ d)) ≤
        t.countP (fun d => decide (cand ≤ d)) := by
      apply List.countP_mono_left
      intro x _ hx
      simp only [decide_eq_true_eq] at hx ⊢
      omega
    rcases List.mem_cons.mp hc with rfl | hct
    · have h1 : (decide (cand + 1 ≤ cand) = true) = False := by simp
      have h2 : decide (cand ≤ cand) = true := by simp
      simp only [h2, if_true, decide_eq_true_eq]
      split
      · next hh => omega
      · omega
    · have := ih hct
      have hab : (if decide (cand + 1 ≤ a) = true then 1 else 0) ≤
          (if decide (cand ≤ a) = true then 1 else 0) := by
        split
        · next hh =>
          simp only [decide_eq_true_eq] at hh
          rw [if_pos (by simp only [decide_eq_true_eq]; omega)]
        · omega
      omega

lemma collectDates_spec : ∀ (fuel : ℕ) (cand : ℤ) (need : ℕ),
    need + nonTradingDays2026.countP (fun d => decide (cand ≤ d)) ≤ fuel →
    (collectDates fuel cand need).length = need ∧
    (∀ d ∈ collectDates fuel cand need, cand ≤ d ∧ d ∉ nonTradingDays2026) ∧
    List.Pairwise (· < ·) (collectDates fuel cand need) := by
  intro fuel
  induction fuel with
  | zero =>
    intro cand need h
    have : need = 0 := by omega
    subst this
    refine ⟨rfl, ?_, List.Pairwise.nil⟩
    intro d hd
    cases hd
  | succ fuel ih =>
    intro cand need h
    by_cases hneed : need = 0
    · subst hneed
      rw [show collectDates (fuel + 1) cand 0 = [] from rfl]
      refine ⟨rfl, ?_, List.Pairwise.nil⟩
      intro d hd
      cases hd
    · obtain ⟨n, rfl⟩ := Nat.exists_eq_succ_of_ne_zero hneed
      by_cases hmem : cand ∈ nonTradingDays2026
      · have heq : collectDates (fuel + 1) cand (n + 1) = collectDates fuel (cand + 1) (n + 1) := by
          rw [show collectDates (fuel + 1) cand (n + 1) =
            (if cand ∈ nonTradingDays2026 then collectDates fuel (cand + 1) (n + 1)
             else cand :: collectDates fuel (cand + 1) (n + 1 - 1)) from rfl]
          rw [if_pos hmem]
        have hcount := countP_le_succ_of_mem cand nonTradingDays2026 hmem
        have ⟨h1, h2, h3⟩ := ih (cand + 1) (n + 1) (by omega)
        rw [heq]
        exact ⟨h1, fun d hd => ⟨by have := (h2 d hd).1; omega, (h2 d hd).2⟩, h3⟩
      · have heq : collectDates (fuel + 1) cand (n + 1) =
            cand :: collectDates fuel (cand + 1) n := by
          rw [show collectDates (fuel + 1) cand (n + 1) =
            (if cand ∈ nonTradingDays2026 then collectDates fuel (cand + 1) (n + 1)
             else cand :: collectDates fuel (cand + 1) (n + 1 - 1)) from rfl]
          rw [if_neg hmem]
          norm_num
        have hcount : nonTradingDays2026.countP (fun d => decide (cand + 1 ≤ d)) ≤
            nonTradingDays2026.countP (fun d => decide (cand ≤ d)) := by
          apply List.countP_mono_left
          intro x _ hx
          simp only [decide_eq_true_eq] at hx ⊢
          omega
        have ⟨h1, h2, h3⟩ := ih (cand + 1) n (by omega)
        rw [heq]
        refine ⟨by simp [h1], ?_, ?_⟩
        · intro d hd
          rcases List.mem_cons.mp hd with rfl | hdt
          · exact ⟨le_refl _, hmem⟩
          · exact ⟨by have := (h2 d hdt).1; omega, (h2 d hdt).2⟩
        · exact List.Pairwise.cons (fun d hd => by have := (h2 d hd).1; omega) h3

lemma nonTradingDays2026_length_le : nonTradingDays2026.length ≤ 379 := by
  unfold nonTradingDays2026 holidays2026 weekends2026
  rw [List.length_append]
  have h2 : (List.map (fun (i : ℕ) => (i : ℤ) + 3) (List.range 365)).length = 365 := by
    rw [List.length_map, List.length_range]
  have h1 : ((List.map (fun (i : ℕ) => (i : ℤ) + 3) (List.range 365)).filter
      (fun d => 5 ≤ d % 7)).length ≤ 365 :=
    le_trans (List.length_filter_le _ _) (le_of_eq h2)
  simp only [List.length_cons, List.length_nil]
  omega

lemma forecast_dates_spec (lastDate : ℤ) :
    (forecast_dates lastDate).length = 5 ∧
    (∀ d ∈ forecast_dates lastDate, lastDate < d ∧ d ∉ nonTradingDays2026) ∧
    List.Pairwise (· < ·) (forecast_dates lastDate) := by
  have hcount : nonTradingDays2026.countP (fun d => decide (lastDate + 1 ≤ d)) ≤ 379 :=
    le_trans (List.countP_le_length _) nonTradingDays2026_length_le
  have ⟨h1, h2, h3⟩ := collectDates_spec 400 (lastDate + 1) HORIZON (by
    unfold HORIZON
    omega)
  exact ⟨h1, fun d hd => ⟨by have := (h2 d hd).1; omega, (h2 d hd).2⟩, h3⟩

lemma forecastStep_fields (c : ℕ) (dist : Option (List ℝ)) (ar : ℚ) (fc fv : ℚ)
    (date : ℤ) (pc pv : ℚ) :
    (forecastStep c dist ar fc fv date pc pv).seance = date ∧
    (forecastStep c dist ar fc fv date pc pv).code = c ∧
    (forecastStep c dist ar fc fv date pc pv).cloture = roundTo 3 fc ∧
    (forecastStep c dist ar fc fv date pc pv).volume = roundHalfEven fv :=
  ⟨rfl, rfl, rfl, rfl⟩

lemma forecastLoop_length (c : ℕ) (dist : Option (List ℝ)) (ar : ℚ) (fcC fcV : ℕ → ℚ)
    (dates : List ℤ) : ∀ (hs : List ℕ) (pc pv : ℚ),
    (forecastLoop c dist ar fcC fcV dates hs pc pv).length = hs.length := by
  intro hs
  induction hs with
  | nil => intro pc pv; rfl
  | cons h t ih =>
    intro pc pv
    rw [show forecastLoop c dist ar fcC fcV dates (h :: t) pc pv =
      forecastStep c dist ar (fcC h) (fcV h) (dates.getD h 0) pc pv ::
        forecastLoop c dist ar fcC fcV dates t (fcC h) (fcV h) from rfl]
    rw [List.length_cons, ih, List.length_cons]

lemma forecastLoop_seance (c : ℕ) (dist : Option (List ℝ)) (ar : ℚ) (fcC fcV : ℕ → ℚ)
    (dates : List ℤ) : ∀ (hs : List ℕ) (pc pv : ℚ),
    (forecastLoop c dist ar fcC fcV dates hs pc pv).map FRow.seance =
      hs.map (fun h => dates.getD h 0) := by
  intro hs
  induction hs with
  | nil => intro pc pv; rfl
  | cons h t ih =>
    intro pc pv
    rw [show forecastLoop c dist ar fcC fcV dates (h :: t) pc pv =
      forecastStep c dist ar (fcC h) (fcV h) (dates.getD h 0) pc pv ::
        forecastLoop c dist ar fcC fcV dates t (fcC h) (fcV h) from rfl]
    rw [List.map_cons, List.map_cons, ih, (forecastStep_fields c dist ar (fcC h) (fcV h)
      (dates.getD h 0) pc pv).1]

lemma forecastLoop_code (c : ℕ) (dist : Option (List ℝ)) (ar : ℚ) (fcC fcV : ℕ → ℚ)
    (dates : List ℤ) : ∀ (hs : List ℕ) (pc pv : ℚ),
    ∀ r ∈ forecastLoop c dist ar fcC fcV dates hs pc pv, r.code = c := by
  intro hs
  induction hs with
  | nil =>
    intro pc pv r hr
    cases hr
  | cons h t ih =>
    intro pc pv r hr
    rw [show forecastLoop c dist ar fcC fcV dates (h :: t) pc pv =
      forecastStep c dist ar (fcC h) (fcV h) (dates.getD h 0) pc pv ::
        forecastLoop c dist ar fcC fcV dates t (fcC h) (fcV h) from rfl] at hr
    rcases List.mem_cons.mp hr with rfl | hrt
    · exact (forecastStep_fields c dist ar (fcC h) (fcV h) (dates.getD h 0) pc pv).2.1
    · exact ih _ _ r hrt

lemma forecastLoop_cloture (c : ℕ) (dist : Option (List ℝ)) (ar : ℚ) (fcC fcV : ℕ → ℚ)
    (dates : List ℤ) : ∀ (hs : List ℕ) (pc pv : ℚ),
    (forecastLoop c dist ar fcC fcV dates hs pc pv).map FRow.cloture =
      hs.map (fun h => roundTo 3 (fcC h)) := by
  intro hs
  induction hs with
  | nil => intro pc pv; rfl
  | cons h t ih =>
    intro pc pv
    rw [show forecastLoop c dist ar fcC fcV dates (h :: t) pc pv =
      forecastStep c dist ar (fcC h) (fcV h) (dates.getD h 0) pc pv ::
        forecastLoop c dist ar fcC fcV dates t (fcC h) (fcV h) from rfl]
    rw [List.map_cons, List.map_cons, ih, (forecastStep_fields c dist ar (fcC h) (fcV h)
      (dates.getD h 0) pc pv).2.2.1]

lemma forecastLoop_volume (c : ℕ) (dist : Option (List ℝ)) (ar : ℚ) (fcC fcV : ℕ → ℚ)
    (dates : List ℤ) : ∀ (hs : List ℕ) (pc pv : ℚ),
    (forecastLoop c dist ar fcC fcV dates hs pc pv).map FRow.volume =
      hs.map (fun h => roundHalfEven (fcV h)) := by
  intro hs
  induction hs with
  | nil => intro pc pv; rfl
  | cons h t ih =>
    intro pc pv
    rw [show forecastLoop c dist ar fcC fcV dates (h :: t) pc pv =
      forecastStep c dist ar (fcC h) (fcV h) (dates.getD h 0) pc pv ::
        forecastLoop c dist ar fcC fcV dates t (fcC h) (fcV h) from rfl]
    rw [List.map_cons, List.map_cons, ih, (forecastStep_fields c dist ar (fcC h) (fcV h)
      (dates.getD h 0) pc pv).2.2.2]

lemma forecastTicker_code (dates : List ℤ) (c : ℕ) (rows : List Row)
    (pm vm : Option (ℕ → ℚ)) (dist : Option (List ℝ)) :
    ∀ r ∈ forecastTicker dates c rows pm vm dist, r.code = c := by
  intro r hr
  unfold forecastTicker at hr
  by_cases hlen : rows.length < 20
  · rw [if_pos hlen] at hr
    cases hr
  · rw [if_neg hlen] at hr
    exact forecastLoop_code c dist _ _ _ dates _ _ _ r hr

lemma map_range_getD {α : Type} (l : List α) (d : α) :
    (List.range l.length).map (fun i => l.getD i d) = l := by
  induction l with
  | nil => rfl
  | cons a t ih =>
    rw [List.length_cons, List.range_succ_eq_map, List.map_cons, List.map_map]
    have hcomp : ((fun i => (a :: t).getD i d) ∘ Nat.succ) = (fun i => t.getD i d) := by
      funext i
      simp
    rw [hcomp, ih]
    simp

lemma filter_flatMap_of_nodup (g : ℕ → List FRow) (hg : ∀ c r, r ∈ g c → r.code = c) :
    ∀ (cs : List ℕ), cs.Nodup → ∀ c ∈ cs,
      (cs.flatMap g).filter (fun r => r.code == c) = g c := by
  intro cs
  induction cs with
  | nil =>
    intro _ c hc
    cases hc
  | cons a t ih =>
    intro hnd c hc
    rw [List.flatMap_cons, List.filter_append]
    rcases List.mem_cons.mp hc with rfl | hct
    · have h1 : (g c).filter (fun r => r.code == c) = g c := by
        apply List.filter_eq_self.mpr
        intro r hr
        simp [hg c r hr]
      have h2 : (t.flatMap g).filter (fun r => r.code == c) = [] := by
        apply List.filter_eq_nil_iff.mpr
        intro r hr
        rw [List.mem_flatMap] at hr
        obtain ⟨b, hb, hrb⟩ := hr
        have hcb : r.code = b := hg b r hrb
        have hne : b ≠ c := fun he => (List.nodup_cons.mp hnd).1 (he ▸ hb)
        simp [hcb, hne]
      rw [h1, h2, List.append_nil]
    · have h1 : (g a).filter (fun r => r.code == c) = [] := by
        apply List.filter_eq_nil_iff.mpr
        intro r hr
        have hca : r.code = a := hg a r hr
        have hne : a ≠ c := fun he => (List.nodup_cons.mp hnd).1 (he ▸ hct)
        simp [hca, hne]
      rw [h1, List.nil_append]
      exact ih (List.nodup_cons.mp hnd).2 c hct

lemma forecast_filter (ds : List Row) (store : ModelStore) (hl : ℕ → Option (List ℝ))
    (c : ℕ) (hc : c ∈ ds.map Row.code) :
    (forecast ds store hl).filter (fun r => r.code == c) =
      forecastTicker (forecast_dates (maxDate ds)) c (rowsOf c ds)
        (store c).1 (store c).2 (hl c) := by
  unfold forecast
  exact filter_flatMap_of_nodup _
    (fun b r hr => forecastTicker_code _ b _ _ _ _ r hr)
    ((ds.map Row.code).dedup) (List.nodup_dedup _) c (List.mem_dedup.mpr hc)

/-- C4: every ticker of the combined table with at least 20 observations
emits exactly 5 forecast rows whose dates are exactly the 5 collected
forecast dates: strictly increasing, strictly after the last date of the
table, and outside the fixed non-trading set; a ticker with fewer than 20
observations emits no rows. -/
theorem forecast_cardinality (ds : List Row) (store : ModelStore)
    (hl : ℕ → Option (List ℝ)) (c : ℕ) (hc : c ∈ ds.map Row.code) :
    (20 ≤ (rowsOf c ds).length →
      ((forecast ds store hl).filter (fun r => r.code == c)).map FRow.seance =
        forecast_dates (maxDate ds) ∧
      ((forecast ds store hl).filter (fun r => r.code == c)).length = 5 ∧
      List.Pairwise (· < ·)
        (((forecast ds store hl).filter (fun r => r.code == c)).map FRow.seance) ∧
      (∀ d ∈ ((forecast ds store hl).filter (fun r => r.code == c)).map FRow.seance,
        maxDate ds < d ∧ d ∉ nonTradingDays2026)) ∧
    ((rowsOf c ds).length < 20 →
      (forecast ds store hl).filter (fun r => r.code == c) = []) := by
  obtain ⟨hlen5, hmem, hpw⟩ := forecast_dates_spec (maxDate ds)
  rw [forecast_filter ds store hl c hc]
  constructor
  · intro h20
    unfold forecastTicker
    rw [if_neg (not_lt.mpr h20)]
    have hseq : (forecastLoop c (hl c) (lastAvgRangeOf (rowsOf c ds))
        (fcCloseOf (store c).1 (rowsOf c ds)) (fcVolOf (store c).2 (rowsOf c ds))
        (forecast_dates (maxDate ds)) (List.range HORIZON)
        (originCloseOf (rowsOf c ds)) (originVolOf (rowsOf c ds))).map FRow.seance =
        forecast_dates (maxDate ds) := by
      rw [forecastLoop_seance]
      have hmr := map_range_getD (forecast_dates (maxDate ds)) (0 : ℤ)
      rw [hlen5] at hmr
      exact hmr
    refine ⟨hseq, ?_, ?_, ?_⟩
    · rw [forecastLoop_length, List.length_range]
      rfl
    · rw [hseq]
      exact hpw
    · rw [hseq]
      exact hmem
  · intro h20
    unfold forecastTicker
    rw [if_pos h20]

/-- Witness for C4 at a concrete table with 20 rows for ticker 1 and one
row for ticker 2 (skipped). -/
theorem forecast_cardinality_witness :
    ((1 ∈ exDs.map Row.code ∧ 20 ≤ (rowsOf 1 exDs).length) ∧
      ((forecast exDs noneStore (fun _ => none)).filter (fun r => r.code == 1)).length = 5) ∧
    ((2 ∈ exDs.map Row.code ∧ (rowsOf 2 exDs).length < 20) ∧
      (forecast exDs noneStore (fun _ => none)).filter (fun r => r.code == 2) = []) :=
  ⟨⟨⟨by decide, by decide⟩,
    ((forecast_cardinality exDs noneStore (fun _ => none) 1 (by decide)).1
      (by decide)).2.1⟩,
   ⟨⟨by decide, by decide⟩,
    (forecast_cardinality exDs noneStore (fun _ => none) 2 (by decide)).2 (by decide)⟩⟩

/-- C8: for an eligible ticker, a failed price-model load still yields the
ticker's 5 forecast rows with the close forecast flat at the last observed
close, and independently a failed volume-model load yields the volume
forecast flat at the last observed volume; the function is total, so the
run never raises. -/
theorem forecast_flat_fallback (ds : List Row) (store : ModelStore)
    (hl : ℕ → Option (List ℝ)) (c : ℕ) (hc : c ∈ ds.map Row.code)
    (h20 : 20 ≤ (rowsOf c ds).length) :
    ((forecast ds store hl).filter (fun r => r.code == c)).length = 5 ∧
    ((store c).1 = none →
      ((forecast ds store hl).filter (fun r => r.code == c)).map FRow.cloture =
        List.replicate 5 (roundTo 3 (originCloseOf (rowsOf c ds)))) ∧
    ((store c).2 = none →
      ((forecast ds store hl).filter (fun r => r.code == c)).map FRow.volume =
        List.replicate 5 (roundHalfEven (originVolOf (rowsOf c ds)))) := by
  rw [forecast_filter ds store hl c hc]
  unfold forecastTicker
  rw [if_neg (not_lt.mpr h20)]
  refine ⟨?_, ?_, ?_⟩
  · rw [forecastLoop_length, List.length_range]
    rfl
  · intro hp
    rw [forecastLoop_cloture, hp]
    show (List.range HORIZON).map (fun _ => roundTo 3 (originCloseOf (rowsOf c ds))) = _
    rw [List.map_const', List.length_range]
    rfl
  · intro hv
    rw [forecastLoop_volume, hv]
    show (List.range HORIZON).map (fun _ => roundHalfEven (originVolOf (rowsOf c ds))) = _
    rw [List.map_const', List.length_range]
    rfl

/-- Witness for C8 at the concrete 20-row table with every model load
failing. -/
theorem forecast_flat_fallback_witness :
    (1 ∈ exDs.map Row.code ∧ 20 ≤ (rowsOf 1 exDs).length ∧
      (noneStore 1).1 = none ∧ (noneStore 1).2 = none) ∧
    ((forecast exDs noneStore (fun _ => none)).filter (fun r => r.code == 1)).map
      FRow.cloture = List.replicate 5 (roundTo 3 (originCloseOf (rowsOf 1 exDs))) ∧
    ((forecast exDs noneStore (fun _ => none)).filter (fun r => r.code == 1)).map
      FRow.volume = List.replicate 5 (roundHalfEven (originVolOf (rowsOf 1 exDs))) :=
  ⟨⟨by decide, by decide, rfl, rfl⟩,
   (forecast_flat_fallback exDs noneStore (fun _ => none) 1 (by decide) (by decide)).2.1 rfl,
   (forecast_flat_fallback exDs noneStore (fun _ => none) 1 (by decide) (by decide)).2.2 rfl⟩

lemma insertRow_cons (r s : Row) (ss : List Row) :
    insertRow r (s :: ss) =
      if r.seance < s.seance then r :: s :: ss else s :: insertRow r ss := rfl

lemma sortByDate_cons (r : Row) (rs : List Row) :
    sortByDate (r :: rs) = insertRow r (sortByDate rs) := rfl

lemma mem_insertRow (r x : Row) : ∀ (l : List Row), x ∈ insertRow r l ↔ x = r ∨ x ∈ l := by
  intro l
  induction l with
  | nil => simp [insertRow]
  | cons s ss ih =>
    rw [insertRow_cons]
    split
    · simp
    · rw [List.mem_cons, ih, List.mem_cons]
      tauto

lemma mem_sortByDate (x : Row) : ∀ (l : List Row), x ∈ sortByDate l ↔ x ∈ l := by
  intro l
  induction l with
  | nil => simp [sortByDate]
  | cons r rs ih =>
    rw [sortByDate_cons, mem_insertRow, ih, List.mem_cons]

lemma length_insertRow (r : Row) : ∀ (l : List Row), (insertRow r l).length = l.length + 1 := by
  intro l
  induction l with
  | nil => rfl
  | cons s ss ih =>
    rw [insertRow_cons]
    split
    · simp
    · simp [ih]

lemma length_sortByDate : ∀ (l : List Row), (sortByDate l).length = l.length := by
  intro l
  induction l with
  | nil => rfl
  | cons r rs ih =>
    rw [sortByDate_cons, length_insertRow, ih, List.length_cons]

lemma insertRow_append (r : Row) (v : List Row) (hv : ∀ y ∈ v, r.seance < y.seance) :
    ∀ (u : List Row), insertRow r (u ++ v) = insertRow r u ++ v := by
  intro u
  induction u with
  | nil =>
    cases v with
    | nil => rfl
    | cons y ys =>
      rw [List.nil_append, insertRow_cons, if_pos (hv y (List.mem_cons_self y ys))]
      rfl
  | cons s ss ih =>
    rw [List.cons_append, insertRow_cons, insertRow_cons]
    split
    · rfl
    · rw [List.cons_append, ih]

lemma sortByDate_append (n : List Row) :
    ∀ (h : List Row), (∀ x ∈ h, ∀ y ∈ n, x.seance < y.seance) →
    sortByDate (h ++ n) = sortByDate h ++ sortByDate n := by
  intro h
  induction h with
  | nil =>
    intro _
    rfl
  | cons a t ih =>
    intro hlt
    rw [List.cons_append, sortByDate_cons, sortByDate_cons,
      ih (fun x hx => hlt x (List.mem_cons_of_mem a hx))]
    exact insertRow_append a (sortByDate n)
      (fun y hy => hlt a (List.mem_cons_self a t) y ((mem_sortByDate y n).mp hy)) (sortByDate t)

lemma rangeList_append (u v : List Row) :
    rangeList (u ++ v) = rangeList u ++ rangeList v := by
  simp [rangeList]

lemma length_rangeList (u : List Row) : (rangeList u).length = u.length := by
  simp [rangeList]

lemma window5_front (u v : List Row) (i : ℕ) (hi : i < u.length) :
    window5 (rangeList (u ++ v)) i = window5 (rangeList u) i := by
  unfold window5
  rw [rangeList_append, List.take_append_of_le_length (by rw [length_rangeList]; omega)]

lemma rollingAvgRange_front (u v : List Row) :
    (rollingAvgRange (u ++ v)).take u.length = rollingAvgRange u := by
  unfold rollingAvgRange
  rw [List.length_append, ← List.map_take, List.take_range,
    min_eq_left (Nat.le_add_right _ _)]
  apply List.map_congr_left
  intro i hi
  rw [List.mem_range] at hi
  rw [window5_front u v i hi]

lemma liqSeries_front (u v : List Row) :
    (liqSeries (u ++ v)).take u.length = liqSeries u := by
  unfold liqSeries
  rw [List.take_zipWith, List.take_append_of_le_length (le_refl _), List.take_length,
    rollingAvgRange_front]

lemma length_rollingAvgRange (u : List Row) : (rollingAvgRange u).length = u.length := by
  simp [rollingAvgRange]

lemma length_liqSeries (u : List Row) : (liqSeries u).length = u.length := by
  simp [liqSeries, length_rollingAvgRange]

lemma rowsOf_append_of_lt (c : ℕ) (hist nd : List Row)
    (hd : ∀ y ∈ nd, y.code = c → ∀ x ∈ hist, x.code = c → x.seance < y.seance) :
    rowsOf c (hist ++ nd) = rowsOf c hist ++ rowsOf c nd := by
  unfold rowsOf
  rw [List.filter_append]
  apply sortByDate_append
  intro x hx y hy
  rw [List.mem_filter] at hx hy
  exact hd y hy.1 (by simpa using hy.2) x hx.1 (by simpa using hx.2)

lemma probsFor_take_eq (hist nd : List Row) (c : ℕ)
    (hd : ∀ y ∈ nd, y.code = c → ∀ x ∈ hist, x.code = c → x.seance < y.seance) :
    (probsFor hist nd c).take (hist.filter (fun r => r.code == c)).length =
      probsFor hist [] c := by
  have hsplit := rowsOf_append_of_lt c hist nd hd
  have hnil : rowsOf c (hist ++ []) = rowsOf c hist := by rw [List.append_nil]
  have hlen : (hist.filter (fun r => r.code == c)).length = (rowsOf c hist).length := by
    rw [rowsOf, length_sortByDate]
  unfold probsFor
  cases historicalLiquidity hist c with
  | none =>
    rw [hsplit, hnil, List.map_append, hlen,
      List.take_append_of_le_length (by rw [List.length_map]),
      List.take_of_length_le (by rw [List.length_map])]
  | some dist =>
    rw [hsplit, hnil, hlen, ← List.map_take, liqSeries_front]

/-- C1: no look-ahead.  The historical liquidity dictionary returned by
feature_engineer does not depend on the new-day rows at all; for any
ticker whose new-day rows coincide in two runs, that ticker's whole
PROB_LIQUIDITY column coincides (so injecting a synthetic extreme value
into another ticker's new day changes nothing for this one); and the
probabilities of the historical rows of any ticker whose new-day rows are
dated after its whole history are unchanged under arbitrary changes of
the new day. -/
theorem feature_engineer_no_lookahead (hist n1 n2 : List Row) :
    (feature_engineer hist n1).1 = (feature_engineer hist n2).1 ∧
    (∀ c, n1.filter (fun r => r.code == c) = n2.filter (fun r => r.code == c) →
      (feature_engineer hist n1).2 c = (feature_engineer hist n2).2 c) ∧
    (∀ c, (∀ y ∈ n1, y.code = c → ∀ x ∈ hist, x.code = c → x.seance < y.seance) →
      (∀ y ∈ n2, y.code = c → ∀ x ∈ hist, x.code = c → x.seance < y.seance) →
      ((feature_engineer hist n1).2 c).take (hist.filter (fun r => r.code == c)).length =
        ((feature_engineer hist n2).2 c).take (hist.filter (fun r => r.code == c)).length) := by
  refine ⟨rfl, ?_, ?_⟩
  · intro c hfil
    show probsFor hist n1 c = probsFor hist n2 c
    unfold probsFor rowsOf
    rw [List.filter_append, List.filter_append, hfil]
  · intro c h1 h2
    show (probsFor hist n1 c).take _ = (probsFor hist n2 c).take _
    rw [probsFor_take_eq hist n1 c h1, probsFor_take_eq hist n2 c h2]

/-- Witness for C1: two runs over a two-ticker history whose new days
differ only by a synthetic extreme volume injected into ticker 1's row:
the dictionary and ticker 2's column are unchanged, and ticker 1's
historical prefix is unchanged. -/
theorem feature_engineer_no_lookahead_witness :
    (feature_engineer exHist2 exNewA).1 = (feature_engineer exHist2 exNewB).1 ∧
    (exNewA.filter (fun r => r.code == 2) = exNewB.filter (fun r => r.code == 2) ∧
      (feature_engineer exHist2 exNewA).2 2 = (feature_engineer exHist2 exNewB).2 2) ∧
    ((∀ y ∈ exNewA, y.code = 1 → ∀ x ∈ exHist2, x.code = 1 → x.seance < y.seance) ∧
     (∀ y ∈ exNewB, y.code = 1 → ∀ x ∈ exHist2, x.code = 1 → x.seance < y.seance) ∧
      ((feature_engineer exHist2 exNewA).2 1).take
        (exHist2.filter (fun r => r.code == 1)).length =
      ((feature_engineer exHist2 exNewB).2 1).take
        (exHist2.filter (fun r => r.code == 1)).length) :=
  ⟨(feature_engineer_no_lookahead exHist2 exNewA exNewB).1,
   ⟨by decide, (feature_engineer_no_lookahead exHist2 exNewA exNewB).2.1 2 (by decide)⟩,
   ⟨by decide, by decide,
    (feature_engineer_no_lookahead exHist2 exNewA exNewB).2.2 1 (by decide) (by decide)⟩⟩

lemma countP_congr_mem {α : Type} (p q : α → Bool) :
    ∀ (l : List α), (∀ a ∈ l, p a = q a) → l.countP p = l.countP q := by
  intro l
  induction l with
  | nil => intro _; rfl
  | cons a t ih =>
    intro h
    rw [List.countP_cons, List.countP_cons, ih (fun b hb => h b (List.mem_cons_of_mem a hb)),
      h a (List.mem_cons_self a t)]

lemma countP_not_add {α : Type} (p : α → Bool) :
    ∀ (l : List α), l.countP p + l.countP (fun a => !p a) = l.length := by
  intro l
  induction l with
  | nil => rfl
  | cons a t ih =>
    rw [List.countP_cons, List.countP_cons, List.length_cons, ← ih]
    cases hpa : p a <;> simp [hpa] <;> omega

lemma le_foldl_max : ∀ (xs : List ℝ) (x : ℝ),
    x ≤ xs.foldl max x ∧ ∀ y ∈ xs, y ≤ xs.foldl max x := by
  intro xs
  induction xs with
  | nil =>
    intro x
    exact ⟨le_refl x, by intro y hy; cases hy⟩
  | cons a t ih =>
    intro x
    have h1 := (ih (max x a)).1
    refine ⟨le_trans (le_max_left x a) h1, ?_⟩
    intro y hy
    rcases List.mem_cons.mp hy with rfl | hyt
    · exact le_trans (le_max_right x y) h1
    · exact (ih (max x a)).2 y hyt

lemma foldl_max_mem : ∀ (xs : List ℝ) (x : ℝ), xs.foldl max x = x ∨ xs.foldl max x ∈ xs := by
  intro xs
  induction xs with
  | nil => intro x; exact Or.inl rfl
  | cons a t ih =>
    intro x
    rcases ih (max x a) with h | h
    · rcases max_choice x a with hm | hm
      · exact Or.inl (by rw [List.foldl_cons, h, hm])
      · exact Or.inr (by rw [List.foldl_cons, h, hm]; exact List.mem_cons_self a t)
    · exact Or.inr (List.mem_cons_of_mem a h)

lemma le_maxList (l : List ℝ) (hl : l ≠ []) : ∀ y ∈ l, y ≤ maxList l := by
  cases l with
  | nil => exact absurd rfl hl
  | cons x xs =>
    intro y hy
    rcases List.mem_cons.mp hy with rfl | hyt
    · exact (le_foldl_max xs y).1
    · exact (le_foldl_max xs x).2 y hyt

lemma maxList_mem (l : List ℝ) (hl : l ≠ []) : maxList l ∈ l := by
  cases l with
  | nil => exact absurd rfl hl
  | cons x xs =>
    rcases foldl_max_mem xs x with h | h
    · rw [show maxList (x :: xs) = xs.foldl max x from rfl, h]
      exact List.mem_cons_self x xs
    · exact List.mem_cons_of_mem x h

lemma le_foldl_min : ∀ (xs : List ℝ) (x : ℝ),
    xs.foldl min x ≤ x ∧ ∀ y ∈ xs, xs.foldl min x ≤ y := by
  intro xs
  induction xs with
  | nil =>
    intro x
    exact ⟨le_refl x, by intro y hy; cases hy⟩
  | cons a t ih =>
    intro x
    have h1 := (ih (min x a)).1
    refine ⟨le_trans h1 (min_le_left x a), ?_⟩
    intro y hy
    rcases List.mem_cons.mp hy with rfl | hyt
    · exact le_trans h1 (min_le_right x y)
    · exact (ih (min x a)).2 y hyt

lemma minList_le (l : List ℝ) (hl : l ≠ []) : ∀ y ∈ l, minList l ≤ y := by
  cases l with
  | nil => exact absurd rfl hl
  | cons x xs =>
    intro y hy
    rcases List.mem_cons.mp hy with rfl | hyt
    · exact (le_foldl_min xs y).1
    · exact (le_foldl_min xs x).2 y hyt

lemma probForRow_bounds (dist : List ℝ) (liq : Option ℝ) (p : ℚ)
    (h : probForRow dist liq = some p) : 0 ≤ p ∧ p ≤ 1 := by
  cases liq with
  | none =>
    rw [show probForRow dist none = some 0 from rfl, Option.some_inj] at h
    rw [← h]
    norm_num
  | some x =>
    rw [show probForRow dist (some x) = (percentileofscore dist x).map (fun q => q / 100)
      from rfl] at h
    unfold percentileofscore at h
    by_cases he : dist.isEmpty
    · rw [if_pos he] at h
      cases h
    · rw [if_neg he] at h
      have h2 : ((dist.countP (fun a => decide (a < x)) : ℚ) +
          dist.countP (fun a => decide (a ≤ x)) +
          (if dist.countP (fun a => decide (a < x)) < dist.countP (fun a => decide (a ≤ x))
            then 1 else 0)) * 50 / dist.length / 100 = p := by
        simpa using h
      clear h
      set n := dist.length with hn
      set l := dist.countP (fun a => decide (a < x)) with hldef
      set r := dist.countP (fun a => decide (a ≤ x)) with hrdef
      have hlr : l ≤ r := by
        rw [hldef, hrdef]
        apply List.countP_mono_left
        intro a _ ha
        simp only [decide_eq_true_eq] at ha ⊢
        exact le_of_lt ha
      have hrn : r ≤ n := by
        rw [hrdef, hn]
        exact List.countP_le_length _
      have hnpos : 0 < n := by
        rw [hn]
        rw [List.isEmpty_iff] at he
        exact List.length_pos.mpr he
      have hEle : ((l : ℚ) + r + (if l < r then 1 else 0)) ≤ 2 * n := by
        split
        · next hlt =>
          have hnat : l + r + 1 ≤ 2 * n := by omega
          exact_mod_cast hnat
        · next =>
          have hnat : l + r ≤ 2 * n := by omega
          exact_mod_cast hnat
      have hE0 : (0 : ℚ) ≤ (l : ℚ) + r + (if l < r then 1 else 0) := by
        split <;> positivity
      rw [← h2]
      constructor
      · apply div_nonneg _ (by norm_num)
        apply div_nonneg _ (by positivity)
        nlinarith [hE0]
      · rw [div_div, div_le_one (by positivity)]
        nlinarith [hEle]

lemma getElem?_rollingAvgRange (rows : List Row) (i : ℕ) (hi : i < rows.length) :
    (rollingAvgRange rows)[i]? =
      some ((window5 (rangeList rows) i).sum / (window5 (rangeList rows) i).length) := by
  unfold rollingAvgRange
  rw [List.getElem?_map, List.getElem?_range hi]
  rfl

lemma getElem?_liqSeries (rows : List Row) (i : ℕ) (r : Row) (hr : rows[i]? = some r) :
    (liqSeries rows)[i]? = some (compute_liquidity r.volume r.cloture
      ((window5 (rangeList rows) i).sum / (window5 (rangeList rows) i).length)) := by
  have hi : i < rows.length := by
    by_contra hcon
    rw [List.getElem?_eq_none (by omega)] at hr
    cases hr
  unfold liqSeries
  rw [List.getElem?_zipWith']
  rw [hr, getElem?_rollingAvgRange rows i hi]
  rfl

lemma probsFor_zero_volume (hist nd : List Row) (c : ℕ) (dist : List ℝ)
    (hdict : historicalLiquidity hist c = some dist) (i : ℕ) (r : Row)
    (hr : (rowsOf c (hist ++ nd))[i]? = some r) (h0 : r.volume * r.cloture ≤ 0) :
    (probsFor hist nd c)[i]? = some (some 0) := by
  unfold probsFor
  rw [hdict]
  rw [List.getElem?_map, getElem?_liqSeries _ i r hr]
  rw [show compute_liquidity r.volume r.cloture _ = none from by
    unfold compute_liquidity; rw [if_pos h0]]
  rfl

lemma probForRow_max (dist : List ℝ) (hne : dist ≠ []) (x : ℝ) (hx : x = maxList dist) :
    probForRow dist (some x) =
      some ((2 * (dist.length : ℚ) - dist.countP (fun a => decide (a = x)) + 1) /
        (2 * dist.length)) ∧
    (dist.countP (fun a => decide (a = x)) = 1 → probForRow dist (some x) = some 1) := by
  have hnpos : 0 < dist.length := List.length_pos.mpr hne
  have hxmem : x ∈ dist := by
    rw [hx]
    exact maxList_mem dist hne
  have hmpos : 0 < dist.countP (fun a => decide (a = x)) := by
    rw [List.countP_pos_iff]
    exact ⟨x, hxmem, by simp⟩
  have hright : dist.countP (fun a => decide (a ≤ x)) = dist.length := by
    apply List.countP_eq_length.mpr
    intro a ha
    simp only [decide_eq_true_eq]
    rw [hx]
    exact le_maxList dist hne a ha
  have hleft : dist.countP (fun a => decide (a < x)) =
      dist.length - dist.countP (fun a => decide (a = x)) := by
    have hsplit := countP_not_add (fun a => decide (a = x)) dist
    have hcongr : dist.countP (fun a => decide (a < x)) =
        dist.countP (fun a => !decide (a = x)) := by
      apply countP_congr_mem
      intro a ha
      have hax : a ≤ x := by
        rw [hx]
        exact le_maxList dist hne a ha
      by_cases haeq : a = x
      · simp [haeq]
      · simp [haeq, lt_of_le_of_ne hax haeq]
    omega
  have hmle : dist.countP (fun a => decide (a = x)) ≤ dist.length :=
    List.countP_le_length _
  have hperc : percentileofscore dist x =
      some ((((dist.length - dist.countP (fun a => decide (a = x)) : ℕ) : ℚ) +
        dist.length + 1) * 50 / dist.length) := by
    unfold percentileofscore
    rw [if_neg (by rw [List.isEmpty_iff]; exact hne), hleft, hright, if_pos (by omega)]
  have hcast : (((dist.length - dist.countP (fun a => decide (a = x)) : ℕ) : ℚ)) =
      (dist.length : ℚ) - dist.countP (fun a => decide (a = x)) :=
    Nat.cast_sub hmle
  constructor
  · rw [show probForRow dist (some x) =
      (percentileofscore dist x).map (fun q => q / 100) from rfl, hperc]
    simp only [Option.map_some']
    rw [Option.some_inj, hcast]
    have hq : ((dist.length : ℚ)) ≠ 0 := by positivity
    field_simp
    ring
  · intro hm1
    rw [show probForRow dist (some x) =
      (percentileofscore dist x).map (fun q => q / 100) from rfl, hperc, hm1]
    simp only [Option.map_some']
    rw [Option.some_inj]
    rw [show ((dist.length - 1 : ℕ) : ℚ) = (dist.length : ℚ) - 1 from by
      exact_mod_cast Nat.cast_sub (by omega)]
    have hq : ((dist.length : ℚ)) ≠ 0 := by positivity
    field_simp
    ring

/-- C2 (amended): every non-NaN PROB_LIQUIDITY produced for a scored
ticker lies in [0,1]; a row with non-finite liquidity (volume*close <= 0)
gets probability exactly 0; and a row whose liquidity equals the maximum
of its ticker's nonempty historical distribution gets probability
1 - (m-1)/(2n) where m is the multiplicity of the maximum and n the
distribution size — in particular exactly 1.0 when the maximum is unique,
not strictly below 1.0 as claimed. -/
lemma probsFor_eq_of_dict (hist newd : List Row) (c : ℕ) (dist : List ℝ)
    (hdict : historicalLiquidity hist c = some dist) :
    probsFor hist newd c =
      (liqSeries (rowsOf c (hist ++ newd))).map (probForRow dist) := by
  unfold probsFor
  rw [hdict]

theorem prob_liquidity_bounds (hist newd : List Row) (c : ℕ) (dist : List ℝ)
    (hdict : historicalLiquidity hist c = some dist) :
    (∀ q ∈ probsFor hist newd c, ∀ p, q = some p → 0 ≤ p ∧ p ≤ 1) ∧
    (∀ (i : ℕ) (r : Row), (rowsOf c (hist ++ newd))[i]? = some r →
      r.volume * r.cloture ≤ 0 → (probsFor hist newd c)[i]? = some (some 0)) ∧
    (dist ≠ [] → ∀ (i : ℕ) (x : ℝ),
      (liqSeries (rowsOf c (hist ++ newd)))[i]? = some (some x) →
      x = maxList dist →
      (probsFor hist newd c)[i]? = some (some
        ((2 * (dist.length : ℚ) - dist.countP (fun a => decide (a = x)) + 1) /
          (2 * dist.length))) ∧
      (dist.countP (fun a => decide (a = x)) = 1 →
        (probsFor hist newd c)[i]? = some (some 1))) := by
  refine ⟨?_, ?_, ?_⟩
  · intro q hq p hp
    rw [probsFor_eq_of_dict hist newd c dist hdict] at hq
    rw [List.mem_map] at hq
    obtain ⟨liq, _, rfl⟩ := hq
    exact probForRow_bounds dist liq p hp
  · intro i r hr h0
    exact probsFor_zero_volume hist newd c dist hdict i r hr h0
  · intro hne i x hliq hx
    have h1 := (probForRow_max dist hne x hx).1
    have h2 := (probForRow_max dist hne x hx).2
    rw [probsFor_eq_of_dict hist newd c dist hdict]
    constructor
    · rw [List.getElem?_map, hliq]
      rw [show Option.map (probForRow dist) (some (some x)) =
        some (probForRow dist (some x)) from rfl, h1]
    · intro hm
      rw [List.getElem?_map, hliq]
      rw [show Option.map (probForRow dist) (some (some x)) =
        some (probForRow dist (some x)) from rfl, h2 hm]

lemma cl_one_two : compute_liquidity 1 2 2 = some 0 := by
  rw [compute_liquidity_of_pos 1 2 2 (by norm_num),
    show denomOf 2 = 2 from by norm_num [denomOf, epsilon]]
  norm_num

lemma cl_zero (close avg : ℚ) : compute_liquidity 0 close avg = none := by
  unfold compute_liquidity
  rw [if_pos (by nlinarith)]

lemma rowsOf_exHist : rowsOf 1 exHist = exHist := by decide

lemma liqSeries_exHist : liqSeries exHist = [some 0] := by
  unfold liqSeries
  rw [show rollingAvgRange exHist = [2] from by
    simp [rollingAvgRange, exHist, rangeList, window5, List.range_succ]
    norm_num]
  show [compute_liquidity 1 2 2] = [some 0]
  rw [cl_one_two]

lemma finiteLiq_exHist : finiteLiq (rowsOf 1 exHist) = [(0 : ℝ)] := by
  unfold finiteLiq
  rw [rowsOf_exHist, liqSeries_exHist]
  rfl

lemma exHist_dist_eval : historicalLiquidity exHist 1 = some [(0 : ℝ), (-1 : ℝ)] := by
  unfold historicalLiquidity
  rw [if_pos (by decide)]
  unfold histLiqList
  rw [finiteLiq_exHist]
  rw [if_neg (by simp)]
  rw [show minList [(0 : ℝ)] = 0 from rfl]
  norm_num

lemma rowsOf_combined : rowsOf 1 (exHist ++ exNew) = exHist ++ exNew := by decide

lemma liqSeries_combined : liqSeries (exHist ++ exNew) = [some 0, none] := by
  unfold liqSeries
  rw [show rollingAvgRange (exHist ++ exNew) = [2, 2] from by
    simp [rollingAvgRange, exHist, exNew, rangeList, window5, List.range_succ]
    norm_num]
  show [compute_liquidity 1 2 2, compute_liquidity 0 2 2] = [some 0, none]
  rw [cl_one_two, cl_zero 2 2]

lemma probForRow_eval_max : probForRow [(0 : ℝ), (-1 : ℝ)] (some 0) = some 1 := by
  have c1 : List.countP (fun a => decide (a < (0 : ℝ))) [(0 : ℝ), (-1 : ℝ)] = 1 := by
    simp only [List.countP_cons, List.countP_nil, decide_eq_true_eq]
    norm_num
  have c2 : List.countP (fun a => decide (a ≤ (0 : ℝ))) [(0 : ℝ), (-1 : ℝ)] = 2 := by
    simp only [List.countP_cons, List.countP_nil, decide_eq_true_eq]
    norm_num
  rw [show probForRow [(0 : ℝ), (-1 : ℝ)] (some 0) =
    (percentileofscore [(0 : ℝ), (-1 : ℝ)] 0).map (fun q => q / 100) from rfl]
  unfold percentileofscore
  rw [if_neg (by simp), c1, c2, if_pos (by norm_num)]
  norm_num

lemma probsFor_eval : probsFor exHist exNew 1 = [some 1, some 0] := by
  rw [probsFor_eq_of_dict exHist exNew 1 [(0 : ℝ), (-1 : ℝ)] exHist_dist_eval,
    rowsOf_combined, liqSeries_combined]
  rw [show ([some 0, none] : List (Option ℝ)).map (probForRow [(0 : ℝ), (-1 : ℝ)]) =
    [probForRow [(0 : ℝ), (-1 : ℝ)] (some 0), some 0] from rfl]
  rw [probForRow_eval_max]

/-- C2 counterexample: in a run over a one-row history (ticker 1, volume
1, close 2), the historical row's liquidity log((1*2)/2) = 0 equals the
maximum of its distribution [0, -1], and its PROB_LIQUIDITY is exactly
1.0 — scipy's rank convention does not exclude the top, refuting that the
probability is "near 1.0 but not exactly 1.0". -/
theorem prob_liquidity_max_exactly_one :
    historicalLiquidity exHist 1 = some [(0 : ℝ), (-1 : ℝ)] ∧
    maxList [(0 : ℝ), (-1 : ℝ)] = 0 ∧
    (liqSeries (rowsOf 1 (exHist ++ exNew)))[0]? = some (some 0) ∧
    (probsFor exHist exNew 1)[0]? = some (some 1) := by
  refine ⟨exHist_dist_eval, ?_, ?_, ?_⟩
  · rw [show maxList [(0 : ℝ), (-1 : ℝ)] = max 0 (-1) from rfl]
    norm_num
  · rw [rowsOf_combined, liqSeries_combined]
    rfl
  · rw [probsFor_eval]
    rfl

/-- Witness for C2 (amended) at the one-row history: the [0,1] bound over
every produced probability, and the zero-volume new-day row getting
exactly probability 0. -/
theorem prob_liquidity_bounds_witness :
    historicalLiquidity exHist 1 = some [(0 : ℝ), (-1 : ℝ)] ∧
    (∀ q ∈ probsFor exHist exNew 1, ∀ p, q = some p → 0 ≤ p ∧ p ≤ 1) ∧
    ((rowsOf 1 (exHist ++ exNew))[1]? =
      some ({ code := 1, seance := 10, haut := 3, bas := 1, cloture := 2, volume := 0 } : Row) ∧
      (probsFor exHist exNew 1)[1]? = some (some 0)) :=
  ⟨exHist_dist_eval,
   (prob_liquidity_bounds exHist exNew 1 [(0 : ℝ), (-1 : ℝ)] exHist_dist_eval).1,
   ⟨by rw [rowsOf_combined]; rfl,
    (prob_liquidity_bounds exHist exNew 1 [(0 : ℝ), (-1 : ℝ)] exHist_dist_eval).2.1 1
      { code := 1, seance := 10, haut := 3, bas := 1, cloture := 2, volume := 0 }
      (by rw [rowsOf_combined]; rfl) (by norm_num)⟩⟩

/-- C3 (amended): for every ticker of the historical table, when at least
one finite liquidity value exists over its history, the distribution
returned by feature_engineer (for any new-day input, which is excluded)
is exactly the finite values plus one sentinel equal to their minimum
minus 1, and the sentinel is strictly below every finite value
(guaranteeing the lowest rank); when no finite value exists, the
distribution is empty (not a sentinel singleton, as the unamended claim
implies); and a combined-table row of a ticker with a distribution whose
volume*close is nonpositive gets probability exactly 0, never NaN. -/
theorem hist_liquidity_sentinel (hist newd : List Row) (c : ℕ) :
    (finiteLiq (rowsOf c hist) ≠ [] →
      ∀ d, (feature_engineer hist newd).1 c = some d →
        d = finiteLiq (rowsOf c hist) ++ [minList (finiteLiq (rowsOf c hist)) - 1] ∧
        ∀ x ∈ finiteLiq (rowsOf c hist), minList (finiteLiq (rowsOf c hist)) - 1 < x) ∧
    (finiteLiq (rowsOf c hist) = [] →
      ∀ d, (feature_engineer hist newd).1 c = some d → d = []) ∧
    (∀ dist, historicalLiquidity hist c = some dist →
      ∀ (i : ℕ) (r : Row), (rowsOf c (hist ++ newd))[i]? = some r →
        r.volume * r.cloture ≤ 0 → (probsFor hist newd c)[i]? = some (some 0)) := by
  refine ⟨?_, ?_, ?_⟩
  · intro hne d hd
    have hd2 : historicalLiquidity hist c = some d := hd
    unfold historicalLiquidity at hd2
    by_cases hc : (hist.map Row.code).contains c
    · rw [if_pos hc, Option.some_inj] at hd2
      unfold histLiqList at hd2
      rw [if_neg (by rw [List.isEmpty_iff]; exact hne)] at hd2
      refine ⟨hd2.symm, ?_⟩
      intro x hx
      have := minList_le (finiteLiq (rowsOf c hist)) hne x hx
      linarith
    · rw [if_neg hc] at hd2
      cases hd2
  · intro hemp d hd
    have hd2 : historicalLiquidity hist c = some d := hd
    unfold historicalLiquidity at hd2
    by_cases hc : (hist.map Row.code).contains c
    · rw [if_pos hc, Option.some_inj] at hd2
      unfold histLiqList at hd2
      rw [if_pos (by rw [List.isEmpty_iff]; exact hemp)] at hd2
      exact hd2.symm
    · rw [if_neg hc] at hd2
      cases hd2
  · intro dist hdict i r hr h0
    exact probsFor_zero_volume hist newd c dist hdict i r hr h0

/-- C3 counterexample: a ticker whose whole history has zero volume gets
an empty distribution — it is not "all finite values plus exactly one
sentinel", and contains no sentinel at all. -/
theorem hist_liquidity_empty_for_zero_volume_ticker :
    (feature_engineer zHist exNew).1 1 = some [] ∧
    finiteLiq (rowsOf 1 zHist) = [] ∧
    ∀ s : ℝ, ([] : List ℝ) ≠ finiteLiq (rowsOf 1 zHist) ++ [s] := by
  have hrows : rowsOf 1 zHist = zHist := by decide
  have hfl : finiteLiq (rowsOf 1 zHist) = [] := by
    unfold finiteLiq
    rw [hrows]
    rw [show liqSeries zHist = [compute_liquidity 0 2 2] from by
      unfold liqSeries
      rw [show rollingAvgRange zHist = [2] from by
        simp [rollingAvgRange, zHist, rangeList, window5, List.range_succ]
        norm_num]
      rfl]
    rw [cl_zero 2 2]
    rfl
  refine ⟨?_, hfl, ?_⟩
  · show historicalLiquidity zHist 1 = some []
    unfold historicalLiquidity
    rw [if_pos (by decide)]
    unfold histLiqList
    rw [hfl]
    rfl
  · intro s
    rw [hfl]
    simp

/-- Witness for C3 (amended) at the one-row history with one finite
liquidity value: the distribution is that value plus the sentinel one
below it, which is strictly below it. -/
theorem hist_liquidity_sentinel_witness :
    (finiteLiq (rowsOf 1 exHist) ≠ [] ∧
      (feature_engineer exHist exNew).1 1 = some [(0 : ℝ), (-1 : ℝ)]) ∧
    ([(0 : ℝ), (-1 : ℝ)] =
      finiteLiq (rowsOf 1 exHist) ++ [minList (finiteLiq (rowsOf 1 exHist)) - 1] ∧
     ∀ x ∈ finiteLiq (rowsOf 1 exHist),
       minList (finiteLiq (rowsOf 1 exHist)) - 1 < x) :=
  ⟨⟨by rw [finiteLiq_exHist]; simp, exHist_dist_eval⟩,
   (hist_liquidity_sentinel exHist exNew 1).1 (by rw [finiteLiq_exHist]; simp)
     [(0 : ℝ), (-1 : ℝ)] exHist_dist_eval⟩
